import Mathlib

set_option maxRecDepth 2000

/-!
Verification of the ScrapeToAPI document-indexing engine (src/app/main.py).

The HTML parse tree handed to the engine by BeautifulSoup is modelled as a
`Node` tree: a node is either a text fragment (NavigableString) or an element
(Tag) with a tag name, an attribute list and an ordered list of children.
A node inside a fixed tree is addressed by the list of child indices leading
to it from the tree root; the parent of the node at `addr ++ [i]` is the node
at `addr`, and its `previous_siblings` are the children of that parent before
index `i` (text siblings included, exactly as in BeautifulSoup).
-/

inductive Node where
  | text (s : String)
  | element (tag : String) (attrs : List (String × String)) (children : List Node)

/-- Model of `element.name` in BeautifulSoup: the tag for a Tag, `None` for a
NavigableString (`hasattr(sibling, 'name')` + truthiness is modelled by
`Option.isSome`). -/
def Node.name? : Node → Option String
  | .text _ => none
  | .element t _ _ => some t

def Node.childrenOf : Node → List Node
  | .text _ => []
  | .element _ _ cs => cs

/-- The node of a tree at a child-index address (root = `[]`). -/
def getNode : Node → List Nat → Option Node
  | n, [] => some n
  | n, i :: rest =>
    match (Node.childrenOf n)[i]? with
    | some c => getNode c rest
    | none => none

/-- Returns `true` iff `addr` resolves inside `root` to an element node (a Tag). -/
def isElemAt (root : Node) (addr : List Nat) : Bool :=
  match getNode root addr with
  | some n => (Node.name? n).isSome
  | none => false

/-- The `(parent, child-index)` pairs along an address, top-down: the walk
from the root to the addressed node. -/
def spine : Node → List Nat → List (Node × Nat)
  | _, [] => []
  | n, i :: rest =>
    (n, i) :: (match (Node.childrenOf n)[i]? with
      | some c => spine c rest
      | none => [])

/-- Model of the `tag_count` computation of `build_fast_xpath`: `1` plus the number of previous
siblings (children of the parent before index `i`) whose `name` equals
`tag`; text siblings have `name = None` and are never counted. -/
def tagCount (sibs : List Node) (i : Nat) (tag : String) : Nat :=
  1 + ((sibs.take i).filter (fun s => Node.name? s == some tag)).length

/-- The f-string `f"{tag}[{tag_count}]"` of `build_fast_xpath`. -/
def seg (tag : String) (pos : Nat) : String :=
  tag ++ "[" ++ toString pos ++ "]"

/-- Python `'/'.join(components)`. -/
def joinSlash : List String → String
  | [] => ""
  | [s] => s
  | s :: rest => s ++ "/" ++ joinSlash rest

/-- The `while current and current.name:` loop of `build_fast_xpath`,
processing the spine deepest entry first (the Python loop walks upward via
`current.parent`).  Returns the `components` list in append order.  For each
entry `(p, i)` the current node is child `i` of `p`; after its segment is
appended the loop moves to `p` and runs the `if current.name in
['body','html']` break check.  When the walk reaches the tree root without
breaking, the loop body runs once more on the root itself (which has no
previous siblings and no parent in the tree model). -/
def bfxLoop : List (Node × Nat) → List String
  | [] => []
  | (p, i) :: rest =>
    match (Node.childrenOf p)[i]? with
    | none => []
    | some c =>
      match Node.name? c with
      | none => []
      | some tag =>
        let s := seg tag (tagCount (Node.childrenOf p) i tag)
        match Node.name? p with
        | none => [s]
        | some pn =>
          if pn = "body" then [s, "body[1]"]
          else if pn = "html" then [s]
          else
            match rest with
            | [] => [s, seg pn 1]
            | _ :: _ => s :: bfxLoop rest

/-- Model of `build_fast_xpath(element)` (src/app/main.py:381-405) for the element of
`root` addressed by `addr`.  `addr = []` is the walk started at the tree root
itself: one loop iteration (no previous siblings), then `current.parent`
falls off the tree. -/
def build_fast_xpath (root : Node) (addr : List Nat) : String :=
  match addr with
  | [] =>
    match Node.name? root with
    | none => "/unknown[1]"
    | some t => "/" ++ seg t 1
  | _ :: _ =>
    let components := bfxLoop ((spine root addr).reverse)
    let comps := components.reverse
    if comps = [] then "/unknown[1]" else "/" ++ joinSlash comps

/-- Modelled from the spec (§4.1): the '/'-delimited `tag[position]` segments
from the root down to the node, where `position` is 1 plus the number of
preceding siblings sharing the same tag name.  Used to compare the code's
upward walk with the spec's top-down description. -/
def specPathSegs : Node → List Nat → List String
  | _, [] => []
  | n, i :: rest =>
    match (Node.childrenOf n)[i]? with
    | none => []
    | some c =>
      match Node.name? c with
      | none => []
      | some tag => seg tag (tagCount (Node.childrenOf n) i tag) :: specPathSegs c rest

example :
    build_fast_xpath
      (Node.element "body" [] [Node.element "p" [] [], Node.element "p" [] []]) [1]
    = "/body[1]/p[2]" := by decide

example :
    build_fast_xpath
      (Node.element "body" []
        [Node.element "div" [] [Node.element "p" [] []]]) [0, 0]
    = "/body[1]/div[1]/p[1]" := by decide

example :
    build_fast_xpath (Node.element "div" [] [Node.element "p" [] []]) [0]
    = "/div[1]/p[1]" := by decide

/-! ## The indexer: `build_optimized_index` (src/app/main.py:273-379) -/

/-- Model of Python `str.strip()`: drop whitespace from both ends. -/
def pyStrip (s : String) : String :=
  ⟨((s.data.dropWhile Char.isWhitespace).reverse.dropWhile Char.isWhitespace).reverse⟩

/-- Model of Python string slicing `s[:n]`: the first `n` characters. -/
def pyTake (s : String) (n : Nat) : String :=
  ⟨s.data.take n⟩

/-- Model of Python `str.upper()`, characterwise (the tags and attribute
values at issue are ASCII). -/
def pyUpper (s : String) : String :=
  ⟨s.data.map Char.toUpper⟩

mutual
/-- All text fragments below a node, in document order. -/
def Node.texts : Node → List String
  | .text s => [s]
  | .element _ _ cs => textsList cs

def textsList : List Node → List String
  | [] => []
  | c :: rest => Node.texts c ++ textsList rest
end

/-- Model of `element.get_text(strip=True)`: each descendant string is
stripped, whitespace-only strings are skipped, and the rest are joined with
the empty separator. -/
def getText (n : Node) : String :=
  String.join (((Node.texts n).map pyStrip).filter (fun s => s ≠ ""))

mutual
/-- Model of BeautifulSoup's `Tag.string`: a text node yields itself; a tag
with exactly one child defers to that child; anything else is `None`. -/
def Node.string? : Node → Option String
  | .text s => some s
  | .element _ _ cs => stringOfChildren cs

def stringOfChildren : List Node → Option String
  | [c] => Node.string? c
  | _ => none
end

/-- Model of `element.attrs` (bs4 multi-valued `class` attributes are taken
as already space-joined strings, which is what the code reduces them to). -/
def Node.attrsOf : Node → List (String × String)
  | .text _ => []
  | .element _ a _ => a

/-- Model of `attrs.get(k)` on the attribute dictionary. -/
def attr? (a : List (String × String)) (k : String) : Option String :=
  (a.find? (fun q => q.1 == k)).map (fun q => q.2)

/-- Python truthiness of `element.get(k)`: present and non-empty. -/
def truthyAttr (a : List (String × String)) (k : String) : Bool :=
  match attr? a k with
  | some v => v ≠ ""
  | none => false

mutual
/-- Addresses (relative to `pre`) and nodes of all element descendants of a
node, in document (pre-) order: the traversal order of
`root_element.find_all(True)`. -/
def elemsWithAddrs (pre : List Nat) : Node → List (List Nat × Node)
  | .text _ => []
  | .element _ _ cs => elemsAux pre 0 cs

def elemsAux (pre : List Nat) (i : Nat) : List Node → List (List Nat × Node)
  | [] => []
  | c :: rest =>
    (match c with
     | .text _ => []
     | .element t a cs => (pre ++ [i], Node.element t a cs) :: elemsWithAddrs (pre ++ [i]) (Node.element t a cs))
    ++ elemsAux pre (i + 1) rest
end

structure ElementDict where
  tag : String
  xpath : String
  attributes : List (String × String)
  text : String
deriving Repr, DecidableEq

structure LinkEntry where
  text : String
  url : String
  xpath : String
deriving Repr, DecidableEq

structure ImageEntry where
  src : String
  alt : String
  xpath : String
deriving Repr, DecidableEq

structure HeadingEntry where
  text : String
  level : Nat
  xpath : String
deriving Repr, DecidableEq

structure TableEntry where
  xpath : String
  rows : Nat
deriving Repr, DecidableEq

structure FormEntry where
  xpath : String
  action : String
  method : String
deriving Repr, DecidableEq

structure TextEntry where
  text : String
  xpath : String
deriving Repr, DecidableEq

/-- Python `dict` lookup (`d.get(k)`). -/
def dictGet (d : List (String × β)) (k : String) : Option β :=
  (d.find? (fun q => q.1 == k)).map (fun q => q.2)

/-- Python `dict` assignment `d[k] = v`: overwrite in place, or append a new
key (insertion order of keys is preserved, as in Python dicts). -/
def dictSet (d : List (String × β)) (k : String) (v : β) : List (String × β) :=
  if (d.find? (fun q => q.1 == k)).isSome then
    d.map (fun q => if q.1 == k then (k, v) else q)
  else d ++ [(k, v)]

structure DocumentIndex where
  by_tag : List (String × List ElementDict)
  by_class : List (String × List ElementDict)
  by_id : List (String × ElementDict)
  by_xpath : List (String × ElementDict)
  links : List LinkEntry
  images : List ImageEntry
  text_content : List TextEntry
  headings : List HeadingEntry
  tables : List TableEntry
  forms : List FormEntry
deriving Repr, DecidableEq

def emptyIndex : DocumentIndex :=
  { by_tag := [], by_class := [], by_id := [], by_xpath := [], links := [],
    images := [], text_content := [], headings := [], tables := [], forms := [] }

/-- Python `int(tag[1])` for the six heading tags. -/
def headingLevel : String → Nat
  | "h1" => 1
  | "h2" => 2
  | "h3" => 3
  | "h4" => 4
  | "h5" => 5
  | "h6" => 6
  | _ => 0

def isHeadingTag (t : String) : Bool :=
  t == "h1" || t == "h2" || t == "h3" || t == "h4" || t == "h5" || t == "h6"

/-- The four dictionary updates of the loop body of `build_optimized_index`
(src/app/main.py:309-328). -/
def indexDictUpdates (idx : DocumentIndex) (tag : String) (attrs : List (String × String))
    (xpath : String) (el : ElementDict) : DocumentIndex :=
  let idx := { idx with by_tag := dictSet idx.by_tag tag ((dictGet idx.by_tag tag).getD [] ++ [el]) }
  let idx := { idx with by_xpath := dictSet idx.by_xpath xpath el }
  let idx :=
    match attr? attrs "class" with
    | some cls =>
      if cls ≠ "" then
        { idx with by_class := dictSet idx.by_class cls ((dictGet idx.by_class cls).getD [] ++ [el]) }
      else idx
    | none => idx
  match attr? attrs "id" with
  | some eid => if eid ≠ "" then { idx with by_id := dictSet idx.by_id eid el } else idx
  | none => idx

/-- The specialized-collection `if/elif` chain of the loop body of
`build_optimized_index` (src/app/main.py:330-367). -/
def indexSpecial (urljoin : String → String → String) (base_url : String) (tag : String)
    (attrs : List (String × String)) (e : Node) (xpath : String)
    (idx : DocumentIndex) : DocumentIndex :=
  if tag = "a" ∧ truthyAttr attrs "href" then
    let href := urljoin base_url ((attr? attrs "href").getD "")
    { idx with links := idx.links ++ [{ text := pyTake (getText e) 100, url := href, xpath := xpath }] }
  else if tag = "img" ∧ truthyAttr attrs "src" then
    let src := urljoin base_url ((attr? attrs "src").getD "")
    { idx with images := idx.images ++ [{ src := src, alt := pyTake ((attr? attrs "alt").getD "") 100, xpath := xpath }] }
  else if isHeadingTag tag then
    let text := getText e
    if text ≠ "" then
      { idx with headings := idx.headings ++ [{ text := pyTake text 200, level := headingLevel tag, xpath := xpath }] }
    else idx
  else if tag = "table" then
    let rows := ((elemsWithAddrs [] e).filter (fun q => Node.name? q.2 == some "tr")).length
    { idx with tables := idx.tables ++ [{ xpath := xpath, rows := rows }] }
  else if tag = "form" then
    let fe : FormEntry :=
      { xpath := xpath
        action := (attr? attrs "action").getD ""
        method := pyUpper ((attr? attrs "method").getD "GET") }
    { idx with forms := idx.forms ++ [fe] }
  else idx

/-- One iteration of the `for i, element in enumerate(all_elements)` loop of
`build_optimized_index` (src/app/main.py:291-367). -/
def indexStep (urljoin : String → String → String) (base_url : String) (root : Node)
    (idx : DocumentIndex) (addrNode : List Nat × Node) : DocumentIndex :=
  match addrNode.2 with
  | .text _ => idx
  | .element tag attrs cs =>
    let e := Node.element tag attrs cs
    let xpath := build_fast_xpath root addrNode.1
    let el : ElementDict :=
      { tag := tag, xpath := xpath, attributes := attrs, text := pyTake (getText e) 200 }
    indexSpecial urljoin base_url tag attrs e xpath (indexDictUpdates idx tag attrs xpath el)

/-- The filter of `root_element.find_all(['p', 'div', 'span'], string=True)`:
one of the three tags, with a defined `.string`. -/
def isTextCandidate (n : Node) : Bool :=
  match n with
  | .element t _ _ => (t == "p" || t == "div" || t == "span") && (Node.string? n).isSome
  | .text _ => false

/-- Model of `build_optimized_index(root_element, base_url)`
(src/app/main.py:273-379).  URL resolution (`urllib.parse.urljoin`) is an
external collaborator and is passed in as a function. -/
def build_optimized_index (urljoin : String → String → String) (root : Node)
    (base_url : String) : DocumentIndex :=
  let all_elements := elemsWithAddrs [] root
  let idx := all_elements.foldl (indexStep urljoin base_url root) emptyIndex
  let text_elements := all_elements.filter (fun q => isTextCandidate q.2)
  let tc := (text_elements.take 100).foldl
    (fun acc q =>
      let text := getText q.2
      if text ≠ "" ∧ text.length > 10 then
        acc ++ [({ text := pyTake text 300, xpath := build_fast_xpath root q.1 } : TextEntry)]
      else acc) []
  { idx with text_content := tc }

example :
    (build_optimized_index (fun _ r => r)
      (Node.element "body" []
        [Node.element "p" [] [Node.text "Hello world"],
         Node.element "p" [] [Node.text "Hi"]]) "https://s.com").text_content
    = [{ text := "Hello world", xpath := "/body[1]/p[1]" }] := by rfl

example :
    (build_optimized_index (fun _ r => r)
      (Node.element "body" []
        [Node.element "form" [("action", "/go"), ("method", "post")] [],
         Node.element "form" [] []]) "b").forms
    = [{ xpath := "/body[1]/form[1]", action := "/go", method := "POST" },
       { xpath := "/body[1]/form[2]", action := "", method := "GET" }] := by decide

/-! ## The summarizer and scrape pipeline: `simple_scrape` (src/app/main.py:213-271) -/

mutual
/-- Model of the decompose pass (src/app/main.py:232-233): every element
whose tag is in `kill` is removed from the tree, together with its whole
subtree (`element.decompose()`), before anything else happens. -/
def decomposeNode (kill : List String) : Node → Node
  | .text s => .text s
  | .element t a cs => .element t a (decomposeChildren kill cs)

def decomposeChildren (kill : List String) : List Node → List Node
  | [] => []
  | .text s :: rest => .text s :: decomposeChildren kill rest
  | .element t a cs :: rest =>
    if t ∈ kill then decomposeChildren kill rest
    else decomposeNode kill (.element t a cs) :: decomposeChildren kill rest
end

mutual
/-- Model of BeautifulSoup's `soup.find(...)` / attribute access: the first
node in document order (the node itself, then its children left to right)
satisfying the filter. -/
def findNode (p : Node → Bool) : Node → Option Node
  | .text s => if p (.text s) then some (.text s) else none
  | .element t a cs =>
    if p (.element t a cs) then some (.element t a cs) else findInChildren p cs

def findInChildren (p : Node → Bool) : List Node → Option Node
  | [] => none
  | c :: rest =>
    match findNode p c with
    | some r => some r
    | none => findInChildren p rest
end

/-- The tag list decomposed by `simple_scrape` before indexing and before
the title/description extraction. -/
def killList : List String := ["script", "style", "noscript", "meta", "link", "head"]

/-- Model of `get_meta_description(soup)` (src/app/main.py:266-271). -/
def get_meta_description (doc : Node) : Option String :=
  match findNode (fun n =>
      Node.name? n == some "meta" && attr? (Node.attrsOf n) "name" == some "description") doc with
  | some m => some ((attr? (Node.attrsOf m) "content").getD "")
  | none => none

structure MetaInfo where
  url : String
  title : Option String
  meta_description : Option String
  scraped_at : String
deriving Repr, DecidableEq

structure Stats where
  total_elements : Nat
  links_count : Nat
  images_count : Nat
  headings_count : Nat
  unique_tags : List String
deriving Repr, DecidableEq

structure ScrapedResult where
  meta : MetaInfo
  index : DocumentIndex
  stats : Stats
deriving Repr, DecidableEq

/-- Insertion into an ascending list; `foldr insertSorted []` models Python
`sorted(...)` for strings. -/
def insertSorted (x : String) : List String → List String
  | [] => [x]
  | y :: rest => if x ≤ y then x :: y :: rest else y :: insertSorted x rest

/-- Model of `simple_scrape(url)` (src/app/main.py:213-264).  The network
fetch and the HTML parse are external collaborators: their outcome is the
`fetched` argument (a parse tree, or the exception text of a failed
fetch/parse).  The random `uuid4` drawn for `scraped_at` is the `rand`
argument.  The decompose pass runs first; the title and the meta description
are extracted afterwards, from the decomposed tree. -/
def simple_scrape (urljoin : String → String → String) (fetched : Except String Node)
    (url : String) (rand : String) : Except String ScrapedResult :=
  match fetched with
  | .error e => .error ("Failed to scrape: " ++ e)
  | .ok doc =>
    let soup := decomposeNode killList doc
    let root_element :=
      match findNode (fun n => Node.name? n == some "body") soup with
      | some b => b
      | none =>
        match findNode (fun n => Node.name? n == some "html") soup with
        | some h => h
        | none => soup
    let index := build_optimized_index urljoin root_element url
    let meta_info : MetaInfo :=
      { url := url
        title :=
          match findNode (fun n => Node.name? n == some "title") soup with
          | some t => Node.string? t
          | none => some "No title"
        meta_description := get_meta_description soup
        scraped_at := pyTake rand 8 }
    .ok { meta := meta_info
          index := index
          stats :=
            { total_elements := index.by_xpath.length
              links_count := index.links.length
              images_count := index.images.length
              headings_count := index.headings.length
              unique_tags := (index.by_tag.map (fun q => q.1)).foldr insertSorted [] } }

/-- Modelled from the spec (§4.3): the text of the first title element of
the document as handed to the engine (before any processing). -/
def specTitleText (doc : Node) : Option String :=
  (findNode (fun n => Node.name? n == some "title") doc).bind Node.string?

/-! ## Result cache and session store (src/app/main.py:23-56, 445-507) -/

def CACHE_DURATION : Int := 7200

structure CacheEntry where
  data : ScrapedResult
  timestamp : Int
deriving Repr, DecidableEq

/-- Model of `is_cache_valid(cache_entry)` (src/app/main.py:54-56); the
wall-clock reading `time.time()` is the `now` argument. -/
def is_cache_valid (now : Int) (e : CacheEntry) : Bool :=
  now - e.timestamp < CACHE_DURATION

/-- Model of `get_cache_key(url)` (src/app/main.py:50-52); Python's opaque
`hash` builtin is passed in as a function. -/
def get_cache_key (hashFn : String → Int) (url : String) : String :=
  "cache_" ++ toString (hashFn url)

abbrev Cache := List (String × CacheEntry)
abbrev Sessions := List (String × ScrapedResult)

structure ScrapeResponse where
  message : String
  slug : String
  cached : Bool
  result : ScrapedResult
deriving Repr, DecidableEq

/-- Model of the `POST /scrape` handler `scrape_url` (src/app/main.py:445-507).
State (the module-level `scrape_cache` and `scraped_data` dicts) is passed
and returned explicitly.  `now` is the wall-clock reading for this request
(a single reading models the `time.time()` calls of one request), `slug` the
fresh `uuid4` session id, `rand` the `uuid4` drawn inside `simple_scrape`,
and `fetched` the outcome of the external fetch+parse.  On a valid cache hit
the stored result is returned unchanged and only the session store grows; on
a miss a successful build is stored in both; a failed build re-raises
(`HTTPException`, the `Except.error` case) and touches neither store. -/
def scrape_url (hashFn : String → Int) (urljoin : String → String → String)
    (cache : Cache) (sessions : Sessions) (url : String) (now : Int)
    (fetched : Except String Node) (slug : String) (rand : String) :
    Except String ScrapeResponse × Cache × Sessions :=
  let url_str := pyStrip url
  let cache_key := get_cache_key hashFn url_str
  let hit :=
    match dictGet cache cache_key with
    | some entry => if is_cache_valid now entry then some entry else none
    | none => none
  match hit with
  | some entry =>
    (Except.ok { message := "URL scraped successfully! (cached)", slug := slug,
                 cached := true, result := entry.data },
     cache, dictSet sessions slug entry.data)
  | none =>
    match simple_scrape urljoin fetched url_str rand with
    | .error e => (Except.error ("Scraping failed: " ++ e), cache, sessions)
    | .ok data =>
      (Except.ok { message := "URL scraped successfully!", slug := slug,
                   cached := false, result := data },
       dictSet cache cache_key { data := data, timestamp := now },
       dictSet sessions slug data)

/-! ## Read endpoints (src/app/main.py:509-563) -/

/-- Model of `GET /api/slug` (src/app/main.py:509-514): an unknown slug
raises `HTTPException(404)`, modelled as `Except.error` with the status code
and detail string. -/
def get_scraped_data (sessions : Sessions) (slug : String) :
    Except (Nat × String) ScrapedResult :=
  match dictGet sessions slug with
  | some d => Except.ok d
  | none => Except.error (404, "Data not found")

structure TagFilterResult where
  filter_type : String
  filter_value : String
  count : Nat
  elements : List ElementDict
deriving Repr, DecidableEq

/-- Model of `GET /api/slug/filter/tag/tag_name` (src/app/main.py:516-530). -/
def filter_by_tag (sessions : Sessions) (slug : String) (tag_name : String) :
    Except (Nat × String) TagFilterResult :=
  match dictGet sessions slug with
  | none => Except.error (404, "Data not found")
  | some data =>
    let filtered := (dictGet data.index.by_tag tag_name).getD []
    Except.ok { filter_type := "tag", filter_value := tag_name,
                count := filtered.length, elements := filtered }

structure XpathFilterResult where
  filter_type : String
  filter_value : String
  count : Nat
  elements : List ElementDict
  message : Option String
deriving Repr, DecidableEq

/-- Model of `GET /api/slug/filter/xpath` (src/app/main.py:534-563). -/
def filter_by_xpath (sessions : Sessions) (slug : String) (xpath : String) :
    Except (Nat × String) XpathFilterResult :=
  match dictGet sessions slug with
  | none => Except.error (404, "Data not found")
  | some data =>
    match dictGet data.index.by_xpath xpath with
    | some el =>
      Except.ok { filter_type := "xpath", filter_value := xpath,
                  count := 1, elements := [el], message := none }
    | none =>
      Except.ok { filter_type := "xpath", filter_value := xpath,
                  count := 0, elements := [],
                  message := some "No element found at this XPath" }

/-! ## Helper lemmas -/

theorem dictGet_dictSet_self {β : Type} (d : List (String × β)) (k : String) (v : β) :
    dictGet (dictSet d k v) k = some v := by
  cases hfind : d.find? (fun q => q.1 == k) with
  | some p =>
    have hp : p.1 = k := by simpa using List.find?_some hfind
    have hcomp : (fun (q : String × β) => q.1 == k) ∘ (fun q => if q.1 == k then (k, v) else q)
        = fun (q : String × β) => q.1 == k := by
      funext q
      by_cases hq : q.1 = k <;> simp [hq]
    simp only [dictGet, dictSet, hfind, Option.isSome_some, if_true, List.find?_map]
    rw [hcomp, hfind]
    simp [hp]
  | none =>
    simp [dictGet, dictSet, hfind]

theorem dictGet_dictSet_ne {β : Type} (d : List (String × β)) (k k' : String) (v : β)
    (h : k' ≠ k) : dictGet (dictSet d k v) k' = dictGet d k' := by
  cases hfind : d.find? (fun q => q.1 == k) with
  | some p =>
    have hcomp : (fun (q : String × β) => q.1 == k') ∘ (fun q => if q.1 == k then (k, v) else q)
        = fun (q : String × β) => q.1 == k' := by
      funext q
      by_cases hq : q.1 = k
      · simp [hq, h, Ne.symm h]
      · simp [hq]
    simp only [dictGet, dictSet, hfind, Option.isSome_some, if_true, List.find?_map, hcomp]
    cases hf2 : d.find? (fun q => q.1 == k') with
    | none => simp
    | some r =>
      have hr : r.1 = k' := by simpa using List.find?_some hf2
      have : ¬ r.1 = k := by rw [hr]; exact h
      simp [this]
  | none =>
    simp only [dictGet, dictSet, hfind, Option.isSome_none, Bool.false_eq_true, if_false,
      List.find?_append]
    cases hf2 : d.find? (fun q => q.1 == k') with
    | some r => simp
    | none =>
      have hkk : (k == k') = false := by
        simp [Ne.symm h]
      simp [List.find?, hkk]

/-! ## Claim C2: cache TTL behaviour of `scrape_url` -/

/-- C2: for every cache key, a lookup whose stored entry has age strictly
below the TTL of 7200 time-units returns the stored result unchanged with
the cache-hit flag true — the response does not depend on the build input
`fetched`, which is how "the build function is not invoked" shows up in the
model — while an entry of age TTL+1, or no entry at all, makes the call run
the build and store a fresh entry with the current time, returning
cache-hit false. -/
theorem scrape_url_cache_ttl (hashFn : String → Int) (urljoin : String → String → String)
    (cache : Cache) (sessions : Sessions) (url : String) (now : Int)
    (fetched : Except String Node) (slug rand : String) :
    (CACHE_DURATION = 7200)
    ∧ (∀ entry, dictGet cache (get_cache_key hashFn (pyStrip url)) = some entry →
        now - entry.timestamp < 7200 →
        scrape_url hashFn urljoin cache sessions url now fetched slug rand
          = (Except.ok { message := "URL scraped successfully! (cached)", slug := slug,
                         cached := true, result := entry.data },
             cache, dictSet sessions slug entry.data))
    ∧ (∀ entry data, dictGet cache (get_cache_key hashFn (pyStrip url)) = some entry →
        now - entry.timestamp = 7200 + 1 →
        simple_scrape urljoin fetched (pyStrip url) rand = Except.ok data →
        scrape_url hashFn urljoin cache sessions url now fetched slug rand
          = (Except.ok { message := "URL scraped successfully!", slug := slug,
                         cached := false, result := data },
             dictSet cache (get_cache_key hashFn (pyStrip url)) { data := data, timestamp := now },
             dictSet sessions slug data))
    ∧ (∀ data, dictGet cache (get_cache_key hashFn (pyStrip url)) = none →
        simple_scrape urljoin fetched (pyStrip url) rand = Except.ok data →
        scrape_url hashFn urljoin cache sessions url now fetched slug rand
          = (Except.ok { message := "URL scraped successfully!", slug := slug,
                         cached := false, result := data },
             dictSet cache (get_cache_key hashFn (pyStrip url)) { data := data, timestamp := now },
             dictSet sessions slug data)) := by
  refine ⟨rfl, ?_, ?_, ?_⟩
  · intro entry hlook hage
    have hvalid : is_cache_valid now entry = true := by
      simp [is_cache_valid, CACHE_DURATION, hage]
    simp [scrape_url, hlook, hvalid]
  · intro entry data hlook hage hbuild
    have hvalid : is_cache_valid now entry = false := by
      simp [is_cache_valid, CACHE_DURATION, hage]
    simp [scrape_url, hlook, hvalid, hbuild]
  · intro data hlook hbuild
    simp [scrape_url, hlook, hbuild]

/-- A concrete `ScrapedResult`: what `simple_scrape` produces for the
document `<html><body></body></html>` with url "u" and uuid "rand". -/
def sampleResult : ScrapedResult :=
  { meta := { url := "u", title := some "No title", meta_description := none,
              scraped_at := "rand" }
    index := emptyIndex
    stats := { total_elements := 0, links_count := 0, images_count := 0,
               headings_count := 0, unique_tags := [] } }

def sampleDoc : Node := Node.element "html" [] [Node.element "body" [] []]

theorem scrape_url_cache_ttl_witness :
    (scrape_url (fun _ => 0) (fun _ r => r)
        [("cache_0", { data := sampleResult, timestamp := 0 })] [] "u" 100
        (Except.error "boom") "s1" "zzz"
      = (Except.ok { message := "URL scraped successfully! (cached)", slug := "s1",
                     cached := true, result := sampleResult },
         [("cache_0", { data := sampleResult, timestamp := 0 })],
         dictSet [] "s1" sampleResult))
    ∧ (scrape_url (fun _ => 0) (fun _ r => r) [] [] "u" 100
        (Except.ok sampleDoc) "s1" "rand"
      = (Except.ok { message := "URL scraped successfully!", slug := "s1",
                     cached := false, result := sampleResult },
         dictSet [] "cache_0" { data := sampleResult, timestamp := 100 },
         dictSet [] "s1" sampleResult)) :=
  ⟨(scrape_url_cache_ttl (fun _ => 0) (fun _ r => r)
      [("cache_0", { data := sampleResult, timestamp := 0 })] [] "u" 100
      (Except.error "boom") "s1" "zzz").2.1
        { data := sampleResult, timestamp := 0 } (by decide) (by decide),
   (scrape_url_cache_ttl (fun _ => 0) (fun _ r => r) [] [] "u" 100
      (Except.ok sampleDoc) "s1" "rand").2.2.2 sampleResult (by decide) rfl⟩

/-! ## Claim C8: a failed build leaves both stores unchanged -/

/-- C8: when the build (fetch+parse+index) fails, `scrape_url` re-raises and
creates no cache entry and no session entry — both stores come back
unchanged — so a second call for the same key on the resulting state behaves
exactly as a call on the original state (the failure is not cached). -/
theorem scrape_url_error_no_store (hashFn : String → Int) (urljoin : String → String → String)
    (cache : Cache) (sessions : Sessions) (url : String) (now : Int)
    (fetched : Except String Node) (slug rand : String) (msg : String)
    (h : (scrape_url hashFn urljoin cache sessions url now fetched slug rand).1
          = Except.error msg) :
    (scrape_url hashFn urljoin cache sessions url now fetched slug rand).2.1 = cache
    ∧ (scrape_url hashFn urljoin cache sessions url now fetched slug rand).2.2 = sessions
    ∧ (∀ (url2 : String) (now2 : Int) (fetched2 : Except String Node) (slug2 rand2 : String),
        scrape_url hashFn urljoin
          (scrape_url hashFn urljoin cache sessions url now fetched slug rand).2.1
          (scrape_url hashFn urljoin cache sessions url now fetched slug rand).2.2
          url2 now2 fetched2 slug2 rand2
        = scrape_url hashFn urljoin cache sessions url2 now2 fetched2 slug2 rand2) := by
  have hstate : (scrape_url hashFn urljoin cache sessions url now fetched slug rand).2.1 = cache
      ∧ (scrape_url hashFn urljoin cache sessions url now fetched slug rand).2.2 = sessions := by
    unfold scrape_url at h ⊢
    cases hlook : dictGet cache (get_cache_key hashFn (pyStrip url)) with
    | some entry =>
      simp only [hlook] at h ⊢
      cases hv : is_cache_valid now entry with
      | true => simp [hv] at h
      | false =>
        simp only [hv] at h ⊢
        cases hb : simple_scrape urljoin fetched (pyStrip url) rand with
        | ok data => simp [hb] at h
        | error e => simp [hb]
    | none =>
      simp only [hlook] at h ⊢
      cases hb : simple_scrape urljoin fetched (pyStrip url) rand with
      | ok data => simp [hb] at h
      | error e => simp [hb]
  exact ⟨hstate.1, hstate.2, fun url2 now2 fetched2 slug2 rand2 => by
    rw [hstate.1, hstate.2]⟩

theorem scrape_url_error_no_store_witness :
    (scrape_url (fun _ => 0) (fun _ r => r) [] [] "u" 5 (Except.error "boom") "s1" "zz").2.1 = []
    ∧ (scrape_url (fun _ => 0) (fun _ r => r) [] [] "u" 5 (Except.error "boom") "s1" "zz").2.2 = []
    ∧ (∀ (url2 : String) (now2 : Int) (fetched2 : Except String Node) (slug2 rand2 : String),
        scrape_url (fun _ => 0) (fun _ r => r)
          (scrape_url (fun _ => 0) (fun _ r => r) [] [] "u" 5 (Except.error "boom") "s1" "zz").2.1
          (scrape_url (fun _ => 0) (fun _ r => r) [] [] "u" 5 (Except.error "boom") "s1" "zz").2.2
          url2 now2 fetched2 slug2 rand2
        = scrape_url (fun _ => 0) (fun _ r => r) [] [] url2 now2 fetched2 slug2 rand2) :=
  scrape_url_error_no_store (fun _ => 0) (fun _ r => r) [] [] "u" 5
    (Except.error "boom") "s1" "zz" "Scraping failed: Failed to scrape: boom" rfl

/-! ## Claim C9: empty query results vs raised 404 -/

/-- C9 counterexample: the claim says a lookup that yields nothing is never
an exception raised to the caller, but a session-id lookup with no entry
raises `HTTPException(404, "Data not found")` (src/app/main.py:512-513). -/
theorem get_scraped_data_missing_raises :
    get_scraped_data [] "missing" = Except.error (404, "Data not found") := rfl

/-- C9 amended: tag and path lookups that match nothing inside an existing
session return a normal empty result (count 0, empty element list) and never
raise, while a lookup with an unknown session id raises
`HTTPException(404)`. -/
theorem filter_lookups_empty_results (sessions : Sessions) (slug : String)
    (data : ScrapedResult) (hs : dictGet sessions slug = some data)
    (tag_name xpath : String)
    (htag : dictGet data.index.by_tag tag_name = none)
    (hxp : dictGet data.index.by_xpath xpath = none) :
    filter_by_tag sessions slug tag_name
      = Except.ok { filter_type := "tag", filter_value := tag_name,
                    count := 0, elements := [] }
    ∧ filter_by_xpath sessions slug xpath
      = Except.ok { filter_type := "xpath", filter_value := xpath,
                    count := 0, elements := [],
                    message := some "No element found at this XPath" }
    ∧ (∀ slug2, dictGet sessions slug2 = none →
        get_scraped_data sessions slug2 = Except.error (404, "Data not found")) := by
  refine ⟨?_, ?_, ?_⟩
  · simp [filter_by_tag, hs, htag]
  · simp [filter_by_xpath, hs, hxp]
  · intro slug2 h2
    simp [get_scraped_data, h2]

theorem filter_lookups_empty_results_witness :
    filter_by_tag [("s", sampleResult)] "s" "div"
      = Except.ok { filter_type := "tag", filter_value := "div",
                    count := 0, elements := [] }
    ∧ filter_by_xpath [("s", sampleResult)] "s" "/body[1]/div[1]"
      = Except.ok { filter_type := "xpath", filter_value := "/body[1]/div[1]",
                    count := 0, elements := [],
                    message := some "No element found at this XPath" }
    ∧ (∀ slug2, dictGet [("s", sampleResult)] slug2 = none →
        get_scraped_data [("s", sampleResult)] slug2
          = Except.error (404, "Data not found")) :=
  filter_lookups_empty_results [("s", sampleResult)] "s" sampleResult (by decide)
    "div" "/body[1]/div[1]" (by decide) (by decide)

/-! ## Claim C3: title and meta description extraction -/

/-- A document with a title and a meta description, as any real page has:
`<html><head><title>Hello</title><meta name="description" content="A demo
page."></head><body><p>Hello world</p></body></html>`. -/
def docC3 : Node :=
  Node.element "html" []
    [Node.element "head" []
      [Node.element "title" [] [Node.text "Hello"],
       Node.element "meta" [("name", "description"), ("content", "A demo page.")] []],
     Node.element "body" [] [Node.element "p" [] [Node.text "Hello world"]]]

/-- C3: the decompose pass of `simple_scrape` (src/app/main.py:232-233)
removes every `head` and `meta` element before the title and the description
are read (src/app/main.py:244-248), so on a document whose first title text
is "Hello" and whose first meta description is "A demo page." the summarizer
still returns the placeholder "No title" and a `None` description. -/
theorem simple_scrape_meta_always_empty :
    (match simple_scrape (fun _ r => r) (Except.ok docC3) "u" "rand" with
     | Except.ok r => (r.meta.title, r.meta.meta_description)
     | Except.error _ => (none, some "unreachable"))
      = (some "No title", none)
    ∧ specTitleText docC3 = some "Hello"
    ∧ get_meta_description docC3 = some "A demo page." :=
  ⟨by decide, by decide, by decide⟩

/-! ## Claim C5: are `scraped_at` and `created_at` monotonic? -/

def respScrapedAt : Except String ScrapeResponse → String
  | .ok r => r.result.meta.scraped_at
  | .error _ => ""

/-- The cache/session state after a first build at wall-clock time 0 whose
`uuid4` begins "ffffffff". -/
def c5Step1 : Except String ScrapeResponse × Cache × Sessions :=
  scrape_url (fun u => if u == "u1" then 1 else 2) (fun _ r => r) [] [] "u1" 0
    (Except.ok sampleDoc) "s1" "ffffffff"

/-- A second build, 100 time-units later in the same process, whose `uuid4`
begins "00000000". -/
def c5Step2 : Except String ScrapeResponse × Cache × Sessions :=
  scrape_url (fun u => if u == "u1" then 1 else 2) (fun _ r => r) c5Step1.2.1 c5Step1.2.2
    "u2" 100 (Except.ok sampleDoc) "s2" "00000000"

/-- C5 counterexample: `meta.scraped_at` is `str(uuid.uuid4())[:8]`
(src/app/main.py:248), a random identifier with no relation to time: a
result built at time 100 can carry "00000000" while the result built
earlier at time 0 carries "ffffffff", so the later result's value sorts
strictly below the earlier one — `scraped_at` is not monotonic with
wall-clock time. -/
theorem scraped_at_not_monotonic :
    (0 : Int) < 100
    ∧ respScrapedAt c5Step1.1 = "ffffffff"
    ∧ respScrapedAt c5Step2.1 = "00000000"
    ∧ respScrapedAt c5Step2.1 < respScrapedAt c5Step1.1 :=
  ⟨by decide, by decide, by decide,
   by
    have h : respScrapedAt c5Step2.1 = "00000000" := by decide
    have h2 : respScrapedAt c5Step1.1 = "ffffffff" := by decide
    rw [h, h2]
    exact String.lt_iff_toList_lt.mpr (by decide)⟩

/-- C5 amended: `CacheEntry.created_at` (the `timestamp` field, written as
`time.time()` at src/app/main.py:484) is monotonic: any entry present after
a `scrape_url` call was either already present before the call, or carries
the call's wall-clock reading — so entries created later never carry an
earlier `created_at`.  `meta.scraped_at`, by contrast, is a random
identifier (see the counterexample). -/
theorem cache_created_at_monotonic (hashFn : String → Int) (urljoin : String → String → String)
    (cache : Cache) (sessions : Sessions) (url : String) (now : Int)
    (fetched : Except String Node) (slug rand : String) (key : String) (entry : CacheEntry)
    (h : dictGet (scrape_url hashFn urljoin cache sessions url now fetched slug rand).2.1 key
          = some entry) :
    dictGet cache key = some entry ∨ entry.timestamp = now := by
  unfold scrape_url at h
  cases hlook : dictGet cache (get_cache_key hashFn (pyStrip url)) with
  | some e0 =>
    cases hv : is_cache_valid now e0 with
    | true =>
      simp only [hlook, hv] at h
      exact Or.inl h
    | false =>
      simp only [hlook, hv, Bool.false_eq_true, if_false] at h
      cases hb : simple_scrape urljoin fetched (pyStrip url) rand with
      | error e => simp only [hb] at h; exact Or.inl h
      | ok data =>
        simp only [hb] at h
        by_cases hkey : key = get_cache_key hashFn (pyStrip url)
        · subst hkey
          rw [dictGet_dictSet_self] at h
          right
          cases h
          rfl
        · rw [dictGet_dictSet_ne _ _ _ _ hkey] at h
          exact Or.inl h
  | none =>
    simp only [hlook] at h
    cases hb : simple_scrape urljoin fetched (pyStrip url) rand with
    | error e => simp only [hb] at h; exact Or.inl h
    | ok data =>
      simp only [hb] at h
      by_cases hkey : key = get_cache_key hashFn (pyStrip url)
      · subst hkey
        rw [dictGet_dictSet_self] at h
        right
        cases h
        rfl
      · rw [dictGet_dictSet_ne _ _ _ _ hkey] at h
        exact Or.inl h

/-- The result stored by the second build of the C5 scenario. -/
def sampleResult2 : ScrapedResult :=
  { sampleResult with meta := ({ sampleResult.meta with url := "u2" } : MetaInfo) }

theorem cache_created_at_monotonic_witness :
    dictGet [] "cache_2" = some ({ data := sampleResult2, timestamp := 100 } : CacheEntry)
    ∨ ({ data := sampleResult2, timestamp := (100 : Int) } : CacheEntry).timestamp = 100 :=
  cache_created_at_monotonic (fun u => if u == "u1" then 1 else 2) (fun _ r => r)
    [] [] "u2" 100 (Except.ok sampleDoc) "s2" "rand" "cache_2"
    { data := sampleResult2, timestamp := 100 } (by decide)

/-! ## Characterizations of the specialized collections -/

def isFormNode (n : Node) : Bool := Node.name? n == some "form"

def isLinkNode (n : Node) : Bool :=
  (Node.name? n == some "a") && truthyAttr (Node.attrsOf n) "href"

def isImgNode (n : Node) : Bool :=
  (Node.name? n == some "img") && truthyAttr (Node.attrsOf n) "src"

/-- The `forms` entry built for a form element (src/app/main.py:362-367). -/
def formEntryOf (root : Node) (q : List Nat × Node) : FormEntry :=
  { xpath := build_fast_xpath root q.1
    action := (attr? (Node.attrsOf q.2) "action").getD ""
    method := pyUpper ((attr? (Node.attrsOf q.2) "method").getD "GET") }

/-- The `links` entry built for an anchor (src/app/main.py:331-337). -/
def linkEntryOf (urljoin : String → String → String) (base_url : String)
    (root : Node) (q : List Nat × Node) : LinkEntry :=
  { text := pyTake (getText q.2) 100
    url := urljoin base_url ((attr? (Node.attrsOf q.2) "href").getD "")
    xpath := build_fast_xpath root q.1 }

/-- The `images` entry built for an image (src/app/main.py:339-345). -/
def imageEntryOf (urljoin : String → String → String) (base_url : String)
    (root : Node) (q : List Nat × Node) : ImageEntry :=
  { src := urljoin base_url ((attr? (Node.attrsOf q.2) "src").getD "")
    alt := pyTake ((attr? (Node.attrsOf q.2) "alt").getD "") 100
    xpath := build_fast_xpath root q.1 }

theorem isHeadingTag_ne_spec {t : String} (h : isHeadingTag t = true) :
    t ≠ "form" ∧ t ≠ "a" ∧ t ≠ "img" ∧ t ≠ "table" := by
  simp only [isHeadingTag, Bool.or_eq_true, beq_iff_eq] at h
  obtain ((((h|h)|h)|h)|h)|h := h <;> subst h <;>
    exact ⟨by decide, by decide, by decide, by decide⟩

theorem indexDictUpdates_special_fields (idx : DocumentIndex) (tag : String)
    (attrs : List (String × String)) (xpath : String) (el : ElementDict) :
    (indexDictUpdates idx tag attrs xpath el).forms = idx.forms
    ∧ (indexDictUpdates idx tag attrs xpath el).links = idx.links
    ∧ (indexDictUpdates idx tag attrs xpath el).images = idx.images
    ∧ (indexDictUpdates idx tag attrs xpath el).text_content = idx.text_content
    ∧ (indexDictUpdates idx tag attrs xpath el).headings = idx.headings
    ∧ (indexDictUpdates idx tag attrs xpath el).tables = idx.tables := by
  simp only [indexDictUpdates]
  cases attr? attrs "class" with
  | none =>
    cases attr? attrs "id" with
    | none => exact ⟨rfl, rfl, rfl, rfl, rfl, rfl⟩
    | some eid => by_cases h : eid ≠ "" <;> simp [h]
  | some cls =>
    cases attr? attrs "id" with
    | none => by_cases h : cls ≠ "" <;> simp [h]
    | some eid =>
      by_cases h : cls ≠ "" <;> by_cases h2 : eid ≠ "" <;> simp [h, h2]

theorem indexSpecial_forms (uj : String → String → String) (bu : String) (tag : String)
    (attrs : List (String × String)) (e : Node) (xpath : String) (idx : DocumentIndex) :
    (indexSpecial uj bu tag attrs e xpath idx).forms
      = idx.forms ++ (if tag = "form" then
          [({ xpath := xpath, action := (attr? attrs "action").getD "",
              method := pyUpper ((attr? attrs "method").getD "GET") } : FormEntry)]
        else []) := by
  by_cases h1 : tag = "a" ∧ truthyAttr attrs "href"
  · have hne : tag ≠ "form" := by rw [h1.1]; decide
    simp [indexSpecial, h1, hne]
  · by_cases h2 : tag = "img" ∧ truthyAttr attrs "src"
    · have hne : tag ≠ "form" := by rw [h2.1]; decide
      simp [indexSpecial, h1, h2, hne]
    · by_cases h3 : isHeadingTag tag
      · have hne := (isHeadingTag_ne_spec h3).1
        by_cases h4 : getText e ≠ "" <;> simp [indexSpecial, h1, h2, h3, h4, hne]
      · by_cases h5 : tag = "table"
        · have hne : tag ≠ "form" := by rw [h5]; decide
          simp [indexSpecial, h1, h2, h3, h5, hne, isHeadingTag]
        · by_cases h6 : tag = "form"
          · simp [indexSpecial, h1, h2, h5, h6, isHeadingTag]
          · simp [indexSpecial, h1, h2, h3, h5, h6]

theorem indexSpecial_links (uj : String → String → String) (bu : String) (tag : String)
    (attrs : List (String × String)) (e : Node) (xpath : String) (idx : DocumentIndex) :
    (indexSpecial uj bu tag attrs e xpath idx).links
      = idx.links ++ (if tag = "a" ∧ truthyAttr attrs "href" then
          [({ text := pyTake (getText e) 100,
              url := uj bu ((attr? attrs "href").getD ""), xpath := xpath } : LinkEntry)]
        else []) := by
  by_cases h1 : tag = "a" ∧ truthyAttr attrs "href"
  · simp [indexSpecial, h1]
  · by_cases h2 : tag = "img" ∧ truthyAttr attrs "src"
    · simp [indexSpecial, h1, h2]
    · by_cases h3 : isHeadingTag tag
      · by_cases h4 : getText e ≠ "" <;> simp [indexSpecial, h1, h2, h3, h4]
      · by_cases h5 : tag = "table"
        · simp [indexSpecial, h1, h2, h3, h5, isHeadingTag]
        · by_cases h6 : tag = "form"
          · simp [indexSpecial, h1, h2, h5, h6, isHeadingTag]
          · simp [indexSpecial, h1, h2, h3, h5, h6]

theorem indexSpecial_images (uj : String → String → String) (bu : String) (tag : String)
    (attrs : List (String × String)) (e : Node) (xpath : String) (idx : DocumentIndex) :
    (indexSpecial uj bu tag attrs e xpath idx).images
      = idx.images ++ (if tag = "img" ∧ truthyAttr attrs "src" then
          [({ src := uj bu ((attr? attrs "src").getD ""),
              alt := pyTake ((attr? attrs "alt").getD "") 100, xpath := xpath } : ImageEntry)]
        else []) := by
  by_cases h2 : tag = "img" ∧ truthyAttr attrs "src"
  · have h1 : ¬ (tag = "a" ∧ truthyAttr attrs "href") := by
      intro hc
      rw [hc.1] at h2
      exact absurd h2.1 (by decide)
    simp [indexSpecial, h1, h2]
  · by_cases h1 : tag = "a" ∧ truthyAttr attrs "href"
    · simp [indexSpecial, h1, h2]
    · by_cases h3 : isHeadingTag tag
      · by_cases h4 : getText e ≠ "" <;> simp [indexSpecial, h1, h2, h3, h4]
      · by_cases h5 : tag = "table"
        · simp [indexSpecial, h1, h2, h3, h5, isHeadingTag]
        · by_cases h6 : tag = "form"
          · simp [indexSpecial, h1, h2, h5, h6, isHeadingTag]
          · simp [indexSpecial, h1, h2, h3, h5, h6]

theorem indexStep_forms (uj : String → String → String) (bu : String) (root : Node)
    (idx : DocumentIndex) (q : List Nat × Node) :
    (indexStep uj bu root idx q).forms
      = idx.forms ++ (if isFormNode q.2 then [formEntryOf root q] else []) := by
  rcases q with ⟨addr, n⟩
  cases n with
  | text s => simp [indexStep, isFormNode, Node.name?]
  | element t a cs =>
    simp only [indexStep, isFormNode, Node.name?, formEntryOf, Node.attrsOf,
      indexSpecial_forms, (indexDictUpdates_special_fields _ _ _ _ _).1]
    by_cases h : t = "form" <;> simp [h]

theorem indexStep_links (uj : String → String → String) (bu : String) (root : Node)
    (idx : DocumentIndex) (q : List Nat × Node) :
    (indexStep uj bu root idx q).links
      = idx.links ++ (if isLinkNode q.2 then [linkEntryOf uj bu root q] else []) := by
  rcases q with ⟨addr, n⟩
  cases n with
  | text s => simp [indexStep, isLinkNode, Node.name?]
  | element t a cs =>
    simp only [indexStep, isLinkNode, Node.name?, linkEntryOf, Node.attrsOf,
      indexSpecial_links, (indexDictUpdates_special_fields _ _ _ _ _).2.1]
    by_cases h : t = "a" ∧ truthyAttr a "href"
    · simp [h, h.1, h.2]
    · rw [if_neg h]
      have : ((t == "a") && truthyAttr a "href") = false := by
        rcases Decidable.not_and_iff_or_not.mp h with h1 | h1
        · simp [h1]
        · simp [h1]
      simp [this]

theorem indexStep_images (uj : String → String → String) (bu : String) (root : Node)
    (idx : DocumentIndex) (q : List Nat × Node) :
    (indexStep uj bu root idx q).images
      = idx.images ++ (if isImgNode q.2 then [imageEntryOf uj bu root q] else []) := by
  rcases q with ⟨addr, n⟩
  cases n with
  | text s => simp [indexStep, isImgNode, Node.name?]
  | element t a cs =>
    simp only [indexStep, isImgNode, Node.name?, imageEntryOf, Node.attrsOf,
      indexSpecial_images, (indexDictUpdates_special_fields _ _ _ _ _).2.2.1]
    by_cases h : t = "img" ∧ truthyAttr a "src"
    · simp [h, h.1, h.2]
    · rw [if_neg h]
      have : ((t == "img") && truthyAttr a "src") = false := by
        rcases Decidable.not_and_iff_or_not.mp h with h1 | h1
        · simp [h1]
        · simp [h1]
      simp [this]

theorem foldl_indexStep_forms (uj : String → String → String) (bu : String) (root : Node)
    (l : List (List Nat × Node)) (idx : DocumentIndex) :
    (l.foldl (indexStep uj bu root) idx).forms
      = idx.forms ++ (l.filter (fun q => isFormNode q.2)).map (formEntryOf root) := by
  induction l generalizing idx with
  | nil => simp
  | cons q rest ih =>
    simp only [List.foldl_cons, List.filter_cons, ih, indexStep_forms]
    by_cases hf : isFormNode q.2 <;> simp [hf]

theorem foldl_indexStep_links (uj : String → String → String) (bu : String) (root : Node)
    (l : List (List Nat × Node)) (idx : DocumentIndex) :
    (l.foldl (indexStep uj bu root) idx).links
      = idx.links ++ (l.filter (fun q => isLinkNode q.2)).map (linkEntryOf uj bu root) := by
  induction l generalizing idx with
  | nil => simp
  | cons q rest ih =>
    simp only [List.foldl_cons, List.filter_cons, ih, indexStep_links]
    by_cases hf : isLinkNode q.2 <;> simp [hf]

theorem foldl_indexStep_images (uj : String → String → String) (bu : String) (root : Node)
    (l : List (List Nat × Node)) (idx : DocumentIndex) :
    (l.foldl (indexStep uj bu root) idx).images
      = idx.images ++ (l.filter (fun q => isImgNode q.2)).map (imageEntryOf uj bu root) := by
  induction l generalizing idx with
  | nil => simp
  | cons q rest ih =>
    simp only [List.foldl_cons, List.filter_cons, ih, indexStep_images]
    by_cases hf : isImgNode q.2 <;> simp [hf]

theorem build_optimized_index_forms (uj : String → String → String) (root : Node)
    (base : String) :
    (build_optimized_index uj root base).forms
      = ((elemsWithAddrs [] root).filter (fun q => isFormNode q.2)).map (formEntryOf root) := by
  simp only [build_optimized_index]
  rw [foldl_indexStep_forms]
  rfl

theorem build_optimized_index_links (uj : String → String → String) (root : Node)
    (base : String) :
    (build_optimized_index uj root base).links
      = ((elemsWithAddrs [] root).filter (fun q => isLinkNode q.2)).map
          (linkEntryOf uj base root) := by
  simp only [build_optimized_index]
  rw [foldl_indexStep_links]
  rfl

theorem build_optimized_index_images (uj : String → String → String) (root : Node)
    (base : String) :
    (build_optimized_index uj root base).images
      = ((elemsWithAddrs [] root).filter (fun q => isImgNode q.2)).map
          (imageEntryOf uj base root) := by
  simp only [build_optimized_index]
  rw [foldl_indexStep_images]
  rfl

/-! ## Claim C10: form method and action defaults -/

/-- C10: the `forms` collection holds exactly one entry per form element, in
document order, whose `method` is the form's `method` attribute converted to
upper case with default "GET" when the attribute is absent, and whose
`action` defaults to the empty string when absent (src/app/main.py:362-367).
The second part spells out the defaults of `formEntryOf`. -/
theorem forms_method_upper_action_default (uj : String → String → String) (root : Node)
    (base : String) :
    ((build_optimized_index uj root base).forms
      = ((elemsWithAddrs [] root).filter (fun q => isFormNode q.2)).map (formEntryOf root))
    ∧ (∀ (addr : List Nat) (n : Node),
        (attr? (Node.attrsOf n) "method" = none →
          (formEntryOf root (addr, n)).method = "GET")
        ∧ (∀ m, attr? (Node.attrsOf n) "method" = some m →
            (formEntryOf root (addr, n)).method = pyUpper m)
        ∧ (attr? (Node.attrsOf n) "action" = none →
            (formEntryOf root (addr, n)).action = "")) := by
  refine ⟨build_optimized_index_forms uj root base, ?_⟩
  intro addr n
  refine ⟨?_, ?_, ?_⟩
  · intro hm
    simp only [formEntryOf, hm, Option.getD_none]
    decide
  · intro m hm
    simp [formEntryOf, hm]
  · intro ha
    simp [formEntryOf, ha]

/-- A page with two forms: one with explicit lower-case method and an
action, one with no attributes at all. -/
def docForms : Node :=
  Node.element "body" []
    [Node.element "form" [("action", "/go"), ("method", "post")] [],
     Node.element "form" [] []]

theorem forms_method_upper_action_default_witness :
    (build_optimized_index (fun _ r => r) docForms "b").forms
      = ((elemsWithAddrs [] docForms).filter (fun q => isFormNode q.2)).map
          (formEntryOf docForms)
    ∧ (formEntryOf docForms ([1], Node.element "form" [] [])).method = "GET"
    ∧ (formEntryOf docForms ([1], Node.element "form" [] [])).action = "" :=
  ⟨(forms_method_upper_action_default (fun _ r => r) docForms "b").1,
   ((forms_method_upper_action_default (fun _ r => r) docForms "b").2
      [1] (Node.element "form" [] [])).1 (by decide),
   ((forms_method_upper_action_default (fun _ r => r) docForms "b").2
      [1] (Node.element "form" [] [])).2.2 (by decide)⟩

/-! ## Claim C7: the text_content collection and its cap -/

/-- The entry appended to `text_content` for a candidate text element
(src/app/main.py:374-377). -/
def textEntryOf (root : Node) (q : List Nat × Node) : TextEntry :=
  { text := pyTake (getText q.2) 300, xpath := build_fast_xpath root q.1 }

theorem tc_foldl (root : Node) (l : List (List Nat × Node)) (acc : List TextEntry) :
    (l.foldl (fun acc q =>
      let text := getText q.2
      if text ≠ "" ∧ text.length > 10 then
        acc ++ [({ text := pyTake text 300, xpath := build_fast_xpath root q.1 } : TextEntry)]
      else acc) acc)
    = acc ++ (l.filter
        (fun q => decide (getText q.2 ≠ "" ∧ (getText q.2).length > 10))).map
        (textEntryOf root) := by
  induction l generalizing acc with
  | nil => simp
  | cons q rest ih =>
    simp only [List.foldl_cons, List.filter_cons]
    by_cases h : getText q.2 ≠ "" ∧ (getText q.2).length > 10
    · rw [if_pos h, ih]
      simp [h, textEntryOf]
    · rw [if_neg h, ih]
      simp [h]

/-- The text-content portion of `build_optimized_index`
(src/app/main.py:370-377): the candidate elements are the `p`/`div`/`span`
elements with a defined `.string`, the cap `[:100]` is applied to the
candidate list first, and the length filter (> 10) runs afterwards, over
only those first 100 candidates. -/
theorem text_content_characterization (uj : String → String → String) (root : Node)
    (base : String) :
    (build_optimized_index uj root base).text_content
      = ((((elemsWithAddrs [] root).filter (fun q => isTextCandidate q.2)).take 100).filter
          (fun q => decide (getText q.2 ≠ "" ∧ (getText q.2).length > 10))).map
          (textEntryOf root) := by
  simp only [build_optimized_index]
  rw [tc_foldl]
  exact List.nil_append _

/-- One short and one long paragraph:
`<body><p>Hello world</p><p>Hi</p></body>` with the texts swapped into the
claim's order. -/
def docHello : Node :=
  Node.element "body" []
    [Node.element "p" [] [Node.text "Hello world"],
     Node.element "p" [] [Node.text "Hi"]]

/-- A page with 101 candidate text elements: first `<p>Hi</p>` (trimmed
length 2, not qualifying), then 100 paragraphs whose text qualifies. -/
def docC7 : Node :=
  Node.element "body" []
    (Node.element "p" [] [Node.text "Hi"]
      :: List.replicate 100 (Node.element "p" [] [Node.text "Hello world, again"]))

/-- C7 counterexample: the code caps the *candidate* list at 100 before the
length-10 filter (`text_elements[:100]`, src/app/main.py:371), not the
produced entries.  On a page with 100 qualifying text nodes (plus one
non-qualifying candidate in front of them) only 99 entries are produced,
although the claim — every qualifying node produces an entry, capped at 100
entries — predicts 100. -/
theorem text_content_cap_counterexample :
    ((build_optimized_index (fun _ r => r) docC7 "b").text_content).length = 99
    ∧ (((elemsWithAddrs [] docC7).filter (fun q =>
          isTextCandidate q.2 && decide (getText q.2 ≠ "" ∧ (getText q.2).length > 10))).length
        = 100)
    ∧ 99 < 100 := by
  refine ⟨?_, by decide, by decide⟩
  rw [text_content_characterization]
  simp only [List.length_map]
  decide

/-- C7 amended: each candidate text node (a `p`/`div`/`span` element with a
defined `.string`) within the *first 100 candidates* whose text has length
greater than 10 produces an entry appended to `text_content`; the cap of 100
applies to the scanned candidates, so the collection never exceeds 100
entries, but qualifying candidates beyond the first 100 are not indexed even
when fewer than 100 entries were produced.  The claim's concrete scenario
holds: indexing a document with texts "Hello world" and "Hi" yields
`text_content` containing exactly the "Hello world" entry. -/
theorem text_content_cap_collection (uj : String → String → String) (root : Node)
    (base : String) :
    ((build_optimized_index uj root base).text_content
      = ((((elemsWithAddrs [] root).filter (fun q => isTextCandidate q.2)).take 100).filter
          (fun q => decide (getText q.2 ≠ "" ∧ (getText q.2).length > 10))).map
          (textEntryOf root))
    ∧ (build_optimized_index uj root base).text_content.length ≤ 100
    ∧ (build_optimized_index (fun _ r => r) docHello "b").text_content
        = [{ text := "Hello world", xpath := "/body[1]/p[1]" }] := by
  refine ⟨text_content_characterization uj root base, ?_, by decide⟩
  rw [text_content_characterization, List.length_map]
  exact le_trans (List.length_filter_le _ _) (List.length_take_le _ _)

/-! ## Claim C4: truncation caps -/

/-- All `ElementDict`s stored anywhere in the four lookup tables. -/
def elDictsOf (idx : DocumentIndex) : List ElementDict :=
  idx.by_tag.flatMap (fun q => q.2) ++ idx.by_class.flatMap (fun q => q.2)
    ++ idx.by_id.map (fun q => q.2) ++ idx.by_xpath.map (fun q => q.2)

/-- The `ElementDict` built for an element (src/app/main.py:301-307). -/
def elDictOf (root : Node) (q : List Nat × Node) : ElementDict :=
  { tag := (Node.name? q.2).getD ""
    xpath := build_fast_xpath root q.1
    attributes := Node.attrsOf q.2
    text := pyTake (getText q.2) 200 }

theorem mem_dictSet {β : Type} {d : List (String × β)} {k : String} {v : β}
    {x : String × β} (h : x ∈ dictSet d k v) : x = (k, v) ∨ x ∈ d := by
  unfold dictSet at h
  cases hf : (d.find? (fun q => q.1 == k)).isSome with
  | true =>
    rw [hf] at h
    simp only [if_true] at h
    rcases List.mem_map.mp h with ⟨q, hq, hfq⟩
    by_cases hqk : (q.1 == k) = true
    · left
      rw [← hfq, if_pos hqk]
    · right
      rw [← hfq, if_neg hqk]
      exact hq
  | false =>
    rw [hf] at h
    simp only [Bool.false_eq_true, if_false] at h
    rcases List.mem_append.mp h with h | h
    · right; exact h
    · left; simpa using h

theorem mem_map_dictSet {β : Type} {d : List (String × β)} {k : String} {v : β}
    {x : β} (h : x ∈ (dictSet d k v).map (fun q => q.2)) :
    x = v ∨ x ∈ d.map (fun q => q.2) := by
  rcases List.mem_map.mp h with ⟨pr, hpr, hx⟩
  rcases mem_dictSet hpr with h1 | h1
  · left; rw [← hx, h1]
  · right; exact List.mem_map.mpr ⟨pr, h1, hx⟩

theorem mem_flatMap_dictSet_append {d : List (String × List ElementDict)} {k : String}
    {el : ElementDict} {x : ElementDict}
    (h : x ∈ (dictSet d k ((dictGet d k).getD [] ++ [el])).flatMap (fun q => q.2)) :
    x = el ∨ x ∈ d.flatMap (fun q => q.2) := by
  rcases List.mem_flatMap.mp h with ⟨pr, hpr, hx⟩
  rcases mem_dictSet hpr with h1 | h1
  · rw [h1] at hx
    rcases List.mem_append.mp hx with h2 | h2
    · cases hdg : dictGet d k with
      | none => rw [hdg] at h2; simp at h2
      | some old =>
        rw [hdg] at h2
        simp only [Option.getD_some] at h2
        right
        unfold dictGet at hdg
        cases hfind : d.find? (fun q => q.1 == k) with
        | none => rw [hfind] at hdg; simp at hdg
        | some pr2 =>
          rw [hfind] at hdg
          simp only [Option.map_some'] at hdg
          cases hdg
          exact List.mem_flatMap.mpr ⟨pr2, List.mem_of_find?_eq_some hfind, h2⟩
    · left; simpa using h2
  · right
    exact List.mem_flatMap.mpr ⟨pr, h1, hx⟩

theorem indexDictUpdates_by_tag (idx : DocumentIndex) (tag : String)
    (attrs : List (String × String)) (xpath : String) (el : ElementDict) :
    (indexDictUpdates idx tag attrs xpath el).by_tag
      = dictSet idx.by_tag tag ((dictGet idx.by_tag tag).getD [] ++ [el]) := by
  simp only [indexDictUpdates]
  cases attr? attrs "class" with
  | none =>
    cases attr? attrs "id" with
    | none => rfl
    | some eid => by_cases h : eid ≠ "" <;> simp [h]
  | some cls =>
    cases attr? attrs "id" with
    | none => by_cases h : cls ≠ "" <;> simp [h]
    | some eid => by_cases h : cls ≠ "" <;> by_cases h2 : eid ≠ "" <;> simp [h, h2]

theorem indexDictUpdates_by_xpath (idx : DocumentIndex) (tag : String)
    (attrs : List (String × String)) (xpath : String) (el : ElementDict) :
    (indexDictUpdates idx tag attrs xpath el).by_xpath = dictSet idx.by_xpath xpath el := by
  simp only [indexDictUpdates]
  cases attr? attrs "class" with
  | none =>
    cases attr? attrs "id" with
    | none => rfl
    | some eid => by_cases h : eid ≠ "" <;> simp [h]
  | some cls =>
    cases attr? attrs "id" with
    | none => by_cases h : cls ≠ "" <;> simp [h]
    | some eid => by_cases h : cls ≠ "" <;> by_cases h2 : eid ≠ "" <;> simp [h, h2]

theorem indexDictUpdates_by_class (idx : DocumentIndex) (tag : String)
    (attrs : List (String × String)) (xpath : String) (el : ElementDict) :
    (indexDictUpdates idx tag attrs xpath el).by_class = idx.by_class
    ∨ ∃ cls, (indexDictUpdates idx tag attrs xpath el).by_class
        = dictSet idx.by_class cls ((dictGet idx.by_class cls).getD [] ++ [el]) := by
  simp only [indexDictUpdates]
  cases attr? attrs "class" with
  | none =>
    cases attr? attrs "id" with
    | none => left; rfl
    | some eid => by_cases h : eid ≠ "" <;> simp [h]
  | some cls =>
    cases attr? attrs "id" with
    | none =>
      by_cases h : cls ≠ ""
      · right; exact ⟨cls, by simp [h]⟩
      · left; simp [h]
    | some eid =>
      by_cases h : cls ≠ ""
      · right; exact ⟨cls, by by_cases h2 : eid ≠ "" <;> simp [h, h2]⟩
      · left; by_cases h2 : eid ≠ "" <;> simp [h, h2]

theorem indexDictUpdates_by_id (idx : DocumentIndex) (tag : String)
    (attrs : List (String × String)) (xpath : String) (el : ElementDict) :
    (indexDictUpdates idx tag attrs xpath el).by_id = idx.by_id
    ∨ ∃ eid, (indexDictUpdates idx tag attrs xpath el).by_id
        = dictSet idx.by_id eid el := by
  simp only [indexDictUpdates]
  cases attr? attrs "class" with
  | none =>
    cases attr? attrs "id" with
    | none => left; rfl
    | some eid =>
      by_cases h : eid ≠ ""
      · right; exact ⟨eid, by simp [h]⟩
      · left; simp [h]
  | some cls =>
    cases attr? attrs "id" with
    | none => by_cases h : cls ≠ "" <;> simp [h]
    | some eid =>
      by_cases h2 : eid ≠ ""
      · right; exact ⟨eid, by by_cases h : cls ≠ "" <;> simp [h, h2]⟩
      · left; by_cases h : cls ≠ "" <;> simp [h, h2]

theorem indexSpecial_dict_fields (uj : String → String → String) (bu : String) (tag : String)
    (attrs : List (String × String)) (e : Node) (xpath : String) (idx : DocumentIndex) :
    (indexSpecial uj bu tag attrs e xpath idx).by_tag = idx.by_tag
    ∧ (indexSpecial uj bu tag attrs e xpath idx).by_class = idx.by_class
    ∧ (indexSpecial uj bu tag attrs e xpath idx).by_id = idx.by_id
    ∧ (indexSpecial uj bu tag attrs e xpath idx).by_xpath = idx.by_xpath := by
  by_cases h1 : tag = "a" ∧ truthyAttr attrs "href"
  · simp [indexSpecial, h1]
  · by_cases h2 : tag = "img" ∧ truthyAttr attrs "src"
    · simp [indexSpecial, h1, h2]
    · by_cases h3 : isHeadingTag tag
      · by_cases h4 : getText e ≠ "" <;> simp [indexSpecial, h1, h2, h3, h4]
      · by_cases h5 : tag = "table"
        · simp [indexSpecial, h1, h2, h5, isHeadingTag]
        · by_cases h6 : tag = "form"
          · simp [indexSpecial, h1, h2, h5, h6, isHeadingTag]
          · simp [indexSpecial, h1, h2, h3, h5, h6]

theorem elDicts_indexStep {uj : String → String → String} {bu : String} {root : Node}
    {idx : DocumentIndex} {q : List Nat × Node} {x : ElementDict}
    (h : x ∈ elDictsOf (indexStep uj bu root idx q)) :
    x = elDictOf root q ∨ x ∈ elDictsOf idx := by
  rcases q with ⟨addr, n⟩
  cases n with
  | text s =>
    right
    simpa [indexStep] using h
  | element t a cs =>
    have hsp := indexSpecial_dict_fields uj bu t a (Node.element t a cs) (build_fast_xpath root addr)
      (indexDictUpdates idx t a (build_fast_xpath root addr)
        { tag := t, xpath := build_fast_xpath root addr, attributes := a,
          text := pyTake (getText (Node.element t a cs)) 200 })
    have hel : elDictsOf (indexStep uj bu root idx (addr, Node.element t a cs))
        = elDictsOf (indexDictUpdates idx t a (build_fast_xpath root addr)
            { tag := t, xpath := build_fast_xpath root addr, attributes := a,
              text := pyTake (getText (Node.element t a cs)) 200 }) := by
      show elDictsOf (indexSpecial uj bu t a (Node.element t a cs) (build_fast_xpath root addr)
          (indexDictUpdates idx t a (build_fast_xpath root addr)
            { tag := t, xpath := build_fast_xpath root addr, attributes := a,
              text := pyTake (getText (Node.element t a cs)) 200 })) = _
      unfold elDictsOf
      rw [hsp.1, hsp.2.1, hsp.2.2.1, hsp.2.2.2]
    rw [hel] at h
    set el : ElementDict :=
      { tag := t, xpath := build_fast_xpath root addr, attributes := a,
        text := pyTake (getText (Node.element t a cs)) 200 } with hel_def
    have helOf : elDictOf root (addr, Node.element t a cs) = el := by
      simp [elDictOf, Node.name?, Node.attrsOf, hel_def]
    rw [helOf]
    unfold elDictsOf at h
    rcases List.mem_append.mp h with h' | h'
    · rcases List.mem_append.mp h' with h'' | h''
      · rcases List.mem_append.mp h'' with h3 | h3
        · rw [indexDictUpdates_by_tag] at h3
          rcases mem_flatMap_dictSet_append h3 with hx | hx
          · left; exact hx
          · right
            unfold elDictsOf
            exact List.mem_append.mpr (Or.inl (List.mem_append.mpr (Or.inl
              (List.mem_append.mpr (Or.inl hx)))))
        · rcases indexDictUpdates_by_class idx t a (build_fast_xpath root addr) el with hc | ⟨cls, hc⟩
          · rw [hc] at h3
            right
            unfold elDictsOf
            exact List.mem_append.mpr (Or.inl (List.mem_append.mpr (Or.inl
              (List.mem_append.mpr (Or.inr h3)))))
          · rw [hc] at h3
            rcases mem_flatMap_dictSet_append h3 with hx | hx
            · left; exact hx
            · right
              unfold elDictsOf
              exact List.mem_append.mpr (Or.inl (List.mem_append.mpr (Or.inl
                (List.mem_append.mpr (Or.inr hx)))))
      · rcases indexDictUpdates_by_id idx t a (build_fast_xpath root addr) el with hc | ⟨eid, hc⟩
        · rw [hc] at h''
          right
          unfold elDictsOf
          exact List.mem_append.mpr (Or.inl (List.mem_append.mpr (Or.inr h'')))
        · rw [hc] at h''
          rcases mem_map_dictSet h'' with hx | hx
          · left; exact hx
          · right
            unfold elDictsOf
            exact List.mem_append.mpr (Or.inl (List.mem_append.mpr (Or.inr hx)))
    · rw [indexDictUpdates_by_xpath] at h'
      rcases mem_map_dictSet h' with hx | hx
      · left; exact hx
      · right
        unfold elDictsOf
        exact List.mem_append.mpr (Or.inr hx)

theorem elDicts_foldl {uj : String → String → String} {bu : String} {root : Node}
    (l : List (List Nat × Node)) (idx : DocumentIndex) {x : ElementDict}
    (h : x ∈ elDictsOf (l.foldl (indexStep uj bu root) idx)) :
    (∃ q ∈ l, x = elDictOf root q) ∨ x ∈ elDictsOf idx := by
  induction l generalizing idx with
  | nil => right; simpa using h
  | cons q rest ih =>
    simp only [List.foldl_cons] at h
    rcases ih _ h with ⟨q2, hq2, hx⟩ | hmem
    · exact Or.inl ⟨q2, List.mem_cons_of_mem _ hq2, hx⟩
    · rcases elDicts_indexStep hmem with hx | hx
      · exact Or.inl ⟨q, List.mem_cons_self _ _, hx⟩
      · exact Or.inr hx

theorem elDicts_build {uj : String → String → String} {root : Node} {base : String}
    {x : ElementDict} (h : x ∈ elDictsOf (build_optimized_index uj root base)) :
    ∃ q ∈ elemsWithAddrs [] root, x = elDictOf root q := by
  have h2 : x ∈ elDictsOf ((elemsWithAddrs [] root).foldl (indexStep uj base root) emptyIndex) := by
    simpa [build_optimized_index, elDictsOf] using h
  rcases elDicts_foldl _ _ h2 with hx | hx
  · exact hx
  · simp [elDictsOf, emptyIndex] at hx

/-- C4: every stored text field is exactly the hard character-count cut of
its source string at the documented cap — element text at 200 (every
`ElementDict` in the four lookup tables), link text at 100, image alt at 100
(the `links`/`images` characterizations below fix those fields as
`pyTake _ 100` of the source), `text_content` entries at 300 — and `pyTake`
is an exact cut: the stored length is `min cap source-length`, a string no
longer than the cap (in particular of exactly cap length) is stored
untruncated, and a longer one is cut to exactly the cap. -/
theorem truncation_caps (uj : String → String → String) (root : Node) (base : String) :
    (∀ el ∈ elDictsOf (build_optimized_index uj root base),
      ∃ s, el.text = pyTake s 200)
    ∧ ((build_optimized_index uj root base).links
        = ((elemsWithAddrs [] root).filter (fun q => isLinkNode q.2)).map
            (linkEntryOf uj base root))
    ∧ ((build_optimized_index uj root base).images
        = ((elemsWithAddrs [] root).filter (fun q => isImgNode q.2)).map
            (imageEntryOf uj base root))
    ∧ (∀ te ∈ (build_optimized_index uj root base).text_content,
        ∃ s, te.text = pyTake s 300)
    ∧ (∀ (s : String) (n : Nat),
        (pyTake s n).length = min n s.length
        ∧ (s.length ≤ n → pyTake s n = s)
        ∧ (n ≤ s.length → (pyTake s n).length = n)) := by
  refine ⟨?_, build_optimized_index_links uj root base,
    build_optimized_index_images uj root base, ?_, ?_⟩
  · intro el hel
    rcases elDicts_build hel with ⟨q, _, hx⟩
    exact ⟨getText q.2, by rw [hx]; rfl⟩
  · intro te hte
    rw [text_content_characterization] at hte
    rcases List.mem_map.mp hte with ⟨q, _, hx⟩
    exact ⟨getText q.2, by rw [← hx]; rfl⟩
  · intro s n
    refine ⟨?_, ?_, ?_⟩
    · show (s.data.take n).length = min n s.data.length
      exact List.length_take n s.data
    · intro hle
      show (⟨s.data.take n⟩ : String) = s
      have : s.data.take n = s.data := List.take_of_length_le hle
      rw [this]
    · intro hge
      show (s.data.take n).length = n
      rw [List.length_take]
      have hsd : s.length = s.data.length := rfl
      omega

def docC4 : Node :=
  Node.element "body" []
    [Node.element "a" [("href", "/x")] [Node.text "Click"]]

theorem truncation_caps_witness :
    (∃ s, ({ tag := "a", xpath := "/body[1]/a[1]", attributes := [("href", "/x")],
             text := "Click" } : ElementDict).text = pyTake s 200)
    ∧ (pyTake "abcde" 3).length = 3
    ∧ pyTake "ab" 2 = "ab" :=
  ⟨(truncation_caps (fun _ r => r) docC4 "b").1
      { tag := "a", xpath := "/body[1]/a[1]", attributes := [("href", "/x")], text := "Click" }
      (by decide),
   ((truncation_caps (fun _ r => r) docC4 "b").2.2.2.2 "abcde" 3).2.2 (by decide),
   ((truncation_caps (fun _ r => r) docC4 "b").2.2.2.2 "ab" 2).2.1 (by decide)⟩

/-! ## Decimal rendering facts (for path-segment injectivity) -/

def decodeDigits (a : Nat) : List Char → Nat
  | [] => a
  | c :: cs => decodeDigits (a * 10 + (c.toNat - 48)) cs

theorem decodeDigits_append (a : Nat) (xs ys : List Char) :
    decodeDigits a (xs ++ ys) = decodeDigits (decodeDigits a xs) ys := by
  induction xs generalizing a with
  | nil => rfl
  | cons c cs ih => exact ih (a * 10 + (c.toNat - 48))

theorem digitChar_isDigit {m : Nat} (h : m < 10) : (Nat.digitChar m).isDigit = true := by
  interval_cases m <;> decide

theorem digitChar_val {m : Nat} (h : m < 10) : (Nat.digitChar m).toNat - 48 = m := by
  interval_cases m <;> decide

theorem toDigitsCore_eq_append : ∀ (f n : Nat), n < f → ∀ ds : List Char,
    Nat.toDigitsCore 10 f n ds = Nat.toDigitsCore 10 f n [] ++ ds := by
  intro f
  induction f with
  | zero => intro n h; omega
  | succ f ih =>
    intro n h ds
    simp only [Nat.toDigitsCore]
    by_cases h0 : n / 10 = 0
    · simp [h0]
    · have hlt : n / 10 < f := by
        have h1 : n / 10 < n := Nat.div_lt_self (by omega) (by norm_num)
        omega
      rw [if_neg h0, if_neg h0, ih _ hlt (Nat.digitChar (n % 10) :: ds),
        ih _ hlt [Nat.digitChar (n % 10)]]
      simp

theorem decode_toDigitsCore : ∀ (f n : Nat), n < f →
    decodeDigits 0 (Nat.toDigitsCore 10 f n []) = n := by
  intro f
  induction f with
  | zero => intro n h; omega
  | succ f ih =>
    intro n h
    simp only [Nat.toDigitsCore]
    by_cases h0 : n / 10 = 0
    · rw [if_pos h0]
      show 0 * 10 + ((Nat.digitChar (n % 10)).toNat - 48) = n
      rw [digitChar_val (Nat.mod_lt _ (by norm_num))]
      omega
    · have hlt : n / 10 < f := by
        have h1 : n / 10 < n := Nat.div_lt_self (by omega) (by norm_num)
        omega
      rw [if_neg h0, toDigitsCore_eq_append _ _ hlt, decodeDigits_append, ih _ hlt]
      show n / 10 * 10 + ((Nat.digitChar (n % 10)).toNat - 48) = n
      rw [digitChar_val (Nat.mod_lt _ (by norm_num))]
      omega

theorem toString_nat_data (n : Nat) :
    (toString n).data = Nat.toDigitsCore 10 (n + 1) n [] := rfl

theorem toString_nat_inj {n m : Nat} (h : toString n = toString m) : n = m := by
  have hd : Nat.toDigitsCore 10 (n + 1) n [] = Nat.toDigitsCore 10 (m + 1) m [] := by
    rw [← toString_nat_data, ← toString_nat_data, h]
  have h1 := decode_toDigitsCore (n + 1) n (by omega)
  have h2 := decode_toDigitsCore (m + 1) m (by omega)
  rw [hd] at h1
  rw [h1] at h2
  exact h2

theorem toDigitsCore_all_digits : ∀ (f n : Nat) (ds : List Char),
    (∀ c ∈ ds, c.isDigit = true) → ∀ c ∈ Nat.toDigitsCore 10 f n ds, c.isDigit = true := by
  intro f
  induction f with
  | zero => intro n ds hds; exact hds
  | succ f ih =>
    intro n ds hds c hc
    simp only [Nat.toDigitsCore] at hc
    by_cases h0 : n / 10 = 0
    · rw [if_pos h0] at hc
      rcases List.mem_cons.mp hc with h | h
      · rw [h]; exact digitChar_isDigit (Nat.mod_lt _ (by norm_num))
      · exact hds c h
    · rw [if_neg h0] at hc
      refine ih (n / 10) (Nat.digitChar (n % 10) :: ds) ?_ c hc
      intro c2 hc2
      rcases List.mem_cons.mp hc2 with h | h
      · rw [h]; exact digitChar_isDigit (Nat.mod_lt _ (by norm_num))
      · exact hds c2 h

theorem toString_nat_all_digits (n : Nat) : ∀ c ∈ (toString n).data, c.isDigit = true := by
  rw [toString_nat_data]
  exact toDigitsCore_all_digits (n + 1) n [] (by simp)

theorem bracket_not_mem_toString (n : Nat) : ('[' : Char) ∉ (toString n).data := by
  intro h
  have := toString_nat_all_digits n _ h
  simp at this

theorem slash_not_mem_toString (n : Nat) : ('/' : Char) ∉ (toString n).data := by
  intro h
  have := toString_nat_all_digits n _ h
  simp at this

/-! ## String-splitting facts for path segments -/

theorem takeWhile_append_sep {sep : Char} (a b : List Char) (ha : sep ∉ a) :
    (a ++ sep :: b).takeWhile (fun c => c != sep) = a := by
  induction a with
  | nil => simp [List.takeWhile]
  | cons x xs ih =>
    have hx : x ≠ sep := fun h => ha (h ▸ List.mem_cons_self _ _)
    simp only [List.cons_append, List.takeWhile]
    have : (x != sep) = true := by simp [hx]
    rw [this]
    exact congrArg (List.cons x) (ih (fun h => ha (List.mem_cons_of_mem _ h)))

theorem dropWhile_append_sep {sep : Char} (a b : List Char) (ha : sep ∉ a) :
    (a ++ sep :: b).dropWhile (fun c => c != sep) = sep :: b := by
  induction a with
  | nil => simp [List.dropWhile]
  | cons x xs ih =>
    have hx : x ≠ sep := fun h => ha (h ▸ List.mem_cons_self _ _)
    simp only [List.cons_append, List.dropWhile]
    have : (x != sep) = true := by simp [hx]
    rw [this]
    exact ih (fun h => ha (List.mem_cons_of_mem _ h))

theorem append_sep_inj {sep : Char} {a₁ a₂ b₁ b₂ : List Char}
    (ha₁ : sep ∉ a₁) (ha₂ : sep ∉ a₂)
    (h : a₁ ++ sep :: b₁ = a₂ ++ sep :: b₂) : a₁ = a₂ ∧ b₁ = b₂ := by
  have hta := takeWhile_append_sep a₁ b₁ ha₁
  have htb := takeWhile_append_sep a₂ b₂ ha₂
  have hda := dropWhile_append_sep a₁ b₁ ha₁
  have hdb := dropWhile_append_sep a₂ b₂ ha₂
  rw [h] at hta hda
  refine ⟨htb ▸ hta.symm ▸ rfl, ?_⟩
  rw [hdb] at hda
  injection hda with h1 h2
  exact h2.symm

theorem seg_data (t : String) (n : Nat) :
    (seg t n).data = t.data ++ '[' :: ((toString n).data ++ [']']) := by
  simp [seg]

theorem seg_inj {t₁ t₂ : String} {n₁ n₂ : Nat}
    (h₁ : ('[' : Char) ∉ t₁.data) (h₂ : ('[' : Char) ∉ t₂.data)
    (h : seg t₁ n₁ = seg t₂ n₂) : t₁ = t₂ ∧ n₁ = n₂ := by
  have hd := congrArg String.data h
  rw [seg_data, seg_data] at hd
  obtain ⟨hta, htb⟩ := append_sep_inj h₁ h₂ hd
  refine ⟨String.ext hta, ?_⟩
  exact toString_nat_inj (String.ext (List.append_cancel_right htb))

/-- Tag names free of `'['` and `'/'` (true of the tag names any HTML
parser produces). -/
def goodTag (t : String) : Bool :=
  t.data.all (fun c => c != '[' && c != '/')

theorem goodTag_bracket {t : String} (h : goodTag t = true) : ('[' : Char) ∉ t.data := by
  intro hc
  have := List.all_eq_true.mp h _ hc
  simp at this

theorem goodTag_slash {t : String} (h : goodTag t = true) : ('/' : Char) ∉ t.data := by
  intro hc
  have := List.all_eq_true.mp h _ hc
  simp at this

theorem seg_slash_free {t : String} (n : Nat) (h : goodTag t = true) :
    ('/' : Char) ∉ (seg t n).data := by
  rw [seg_data]
  intro hc
  rcases List.mem_append.mp hc with hc | hc
  · exact goodTag_slash h hc
  · rcases List.mem_cons.mp hc with hc | hc
    · simp at hc
    · rcases List.mem_append.mp hc with hc | hc
      · exact slash_not_mem_toString n hc
      · simp at hc

/-! ## Injectivity of the '/'-join -/

theorem joinSlash_data (l : List String) :
    (joinSlash l).data = List.intercalate ['/'] (l.map String.data) := by
  induction l with
  | nil => rfl
  | cons s rest ih =>
    cases rest with
    | nil => simp [joinSlash, List.intercalate]
    | cons s2 rest2 =>
      show (s ++ "/" ++ joinSlash (s2 :: rest2)).data = _
      simp only [String.data_append, ih]
      simp [List.intercalate, List.intersperse]

theorem joinSlash_inj {l₁ l₂ : List String}
    (h₁ : ∀ s ∈ l₁, ('/' : Char) ∉ s.data) (h₂ : ∀ s ∈ l₂, ('/' : Char) ∉ s.data)
    (hn₁ : l₁ ≠ []) (hn₂ : l₂ ≠ []) (heq : joinSlash l₁ = joinSlash l₂) : l₁ = l₂ := by
  have hd := congrArg String.data heq
  rw [joinSlash_data, joinSlash_data] at hd
  have hs₁ := List.splitOn_intercalate (l₁.map String.data) '/'
    (fun l hl => by
      rcases List.mem_map.mp hl with ⟨s, hs, hls⟩
      rw [← hls]
      exact h₁ s hs)
    (by simpa using hn₁)
  have hs₂ := List.splitOn_intercalate (l₂.map String.data) '/'
    (fun l hl => by
      rcases List.mem_map.mp hl with ⟨s, hs, hls⟩
      rw [← hls]
      exact h₂ s hs)
    (by simpa using hn₂)
  have hmap : l₁.map String.data = l₂.map String.data := by
    rw [← hs₁, ← hs₂, hd]
  clear hs₁ hs₂ hd heq h₁ h₂ hn₁ hn₂
  induction l₁ generalizing l₂ with
  | nil => cases l₂ <;> simp_all
  | cons s rest ih =>
    cases l₂ with
    | nil => simp_all
    | cons s2 rest2 =>
      simp only [List.map_cons, List.cons.injEq] at hmap
      rw [String.ext hmap.1, ih hmap.2]

/-! ## Tree-wide predicates -/

mutual
/-- All tag names in the tree (the node itself included) are free of `'['`
and `'/'`. -/
def goodTags : Node → Bool
  | .text _ => true
  | .element t _ cs => goodTag t && goodTagsList cs

def goodTagsList : List Node → Bool
  | [] => true
  | c :: rest => goodTags c && goodTagsList rest
end

mutual
/-- No element strictly below the node is tagged `body` or `html`. -/
def noBodyHtmlBelow : Node → Bool
  | .text _ => true
  | .element _ _ cs => noBodyHtmlList cs

def noBodyHtmlList : List Node → Bool
  | [] => true
  | c :: rest =>
    (match c with
     | .text _ => true
     | .element t _ _ => t != "body" && t != "html") && noBodyHtmlBelow c && noBodyHtmlList rest
end

theorem getNode_cons {n : Node} {i : Nat} {rest : List Nat} {target : Node} :
    getNode n (i :: rest) = some target ↔
      ∃ c, (Node.childrenOf n)[i]? = some c ∧ getNode c rest = some target := by
  show (match (Node.childrenOf n)[i]? with
        | some c => getNode c rest
        | none => none) = some target ↔ _
  cases h : (Node.childrenOf n)[i]? with
  | some c => simp [h]
  | none => simp [h]

theorem name_isSome_of_child {n : Node} {i : Nat} {c : Node}
    (h : (Node.childrenOf n)[i]? = some c) : (Node.name? n).isSome := by
  cases n with
  | text s => simp [Node.childrenOf] at h
  | element t a cs => simp [Node.name?]

theorem goodTagsList_mem {cs : List Node} (h : goodTagsList cs = true) {c : Node}
    (hc : c ∈ cs) : goodTags c = true := by
  induction cs with
  | nil => simp at hc
  | cons x xs ih =>
    rw [goodTagsList, Bool.and_eq_true] at h
    rcases List.mem_cons.mp hc with hc | hc
    · rw [hc]; exact h.1
    · exact ih h.2 hc

theorem goodTags_child {n : Node} (h : goodTags n = true) {i : Nat} {c : Node}
    (hc : (Node.childrenOf n)[i]? = some c) : goodTags c = true := by
  cases n with
  | text s => simp [Node.childrenOf] at hc
  | element t a cs =>
    rw [goodTags, Bool.and_eq_true] at h
    exact goodTagsList_mem h.2 (List.getElem?_mem hc)

theorem goodTags_tag {n : Node} (h : goodTags n = true) {t : String}
    (ht : Node.name? n = some t) : goodTag t = true := by
  cases n with
  | text s => simp [Node.name?] at ht
  | element t2 a cs =>
    rw [goodTags, Bool.and_eq_true] at h
    cases ht
    exact h.1

theorem noBodyHtmlList_mem {cs : List Node} (h : noBodyHtmlList cs = true) {c : Node}
    (hc : c ∈ cs) :
    noBodyHtmlBelow c = true
    ∧ Node.name? c ≠ some "body" ∧ Node.name? c ≠ some "html" := by
  induction cs with
  | nil => simp at hc
  | cons x xs ih =>
    rw [noBodyHtmlList.eq_def] at h
    rw [Bool.and_eq_true, Bool.and_eq_true] at h
    rcases List.mem_cons.mp hc with hc | hc
    · subst hc
      refine ⟨h.1.2, ?_, ?_⟩ <;>
        (cases c with
         | text s => simp [Node.name?]
         | element t a cs2 =>
           have := h.1.1
           rw [Bool.and_eq_true] at this
           simp only [Node.name?, ne_eq, Option.some.injEq]
           intro hx
           first
             | exact absurd hx (by simpa using this.1)
             | exact absurd hx (by simpa using this.2))
    · exact ih h.2 hc

theorem noBodyHtml_child {n : Node} (h : noBodyHtmlBelow n = true) {i : Nat} {c : Node}
    (hc : (Node.childrenOf n)[i]? = some c) :
    noBodyHtmlBelow c = true
    ∧ Node.name? c ≠ some "body" ∧ Node.name? c ≠ some "html" := by
  cases n with
  | text s => simp [Node.childrenOf] at hc
  | element t a cs =>
    rw [noBodyHtmlBelow] at h
    exact noBodyHtmlList_mem h (List.getElem?_mem hc)

/-- Below a clean tree, every strictly-descendant node is neither `body` nor
`html`. -/
theorem noBodyHtml_at {n : Node} (h : noBodyHtmlBelow n = true) :
    ∀ (addr : List Nat), addr ≠ [] → ∀ nd, getNode n addr = some nd →
      Node.name? nd ≠ some "body" ∧ Node.name? nd ≠ some "html" := by
  intro addr
  induction addr generalizing n with
  | nil => intro h2; exact absurd rfl h2
  | cons i rest ih =>
    intro _ nd hres
    rcases getNode_cons.mp hres with ⟨c, hc, hres2⟩
    have hchild := noBodyHtml_child h hc
    cases rest with
    | nil =>
      cases hres2
      exact hchild.2
    | cons j rest2 =>
      exact ih hchild.1 (by simp) nd hres2

/-- Below a tree with good tags, the tag at every address is good. -/
theorem goodTags_at {n : Node} (h : goodTags n = true) :
    ∀ (addr : List Nat) (nd : Node), getNode n addr = some nd →
      ∀ t, Node.name? nd = some t → goodTag t = true := by
  intro addr
  induction addr generalizing n with
  | nil =>
    intro nd hres t ht
    cases hres
    exact goodTags_tag h ht
  | cons i rest ih =>
    intro nd hres t ht
    rcases getNode_cons.mp hres with ⟨c, hc, hres2⟩
    exact ih (goodTags_child h hc) nd hres2 t ht

/-! ## The upward walk versus the top-down path -/

/-- The segment contributed by one spine entry `(parent, child index)`. -/
def entrySegOf (q : Node × Nat) : String :=
  match (Node.childrenOf q.1)[q.2]? with
  | some c =>
    match Node.name? c with
    | some tg => seg tg (tagCount (Node.childrenOf q.1) q.2 tg)
    | none => ""
  | none => ""

/-- A spine entry the loop passes through without breaking: the child
exists and is an element, and the parent is an element that is neither
`body` nor `html`. -/
def goodEntry (q : Node × Nat) : Prop :=
  (∃ c, (Node.childrenOf q.1)[q.2]? = some c ∧ (Node.name? c).isSome)
  ∧ (Node.name? q.1).isSome
  ∧ Node.name? q.1 ≠ some "body" ∧ Node.name? q.1 ≠ some "html"

/-- What the walk emits once it reaches the top of the tree: the `body[1]`
marker below a body, nothing below `html`, and the root's own `tag[1]`
segment otherwise. -/
def rootSuffix (n : Node) : List String :=
  match Node.name? n with
  | some pn =>
    if pn = "body" then ["body[1]"] else if pn = "html" then [] else [seg pn 1]
  | none => []

theorem bfxLoop_single {n : Node} {i : Nat} {c : Node} {tg pn : String}
    (hc : (Node.childrenOf n)[i]? = some c) (htg : Node.name? c = some tg)
    (hpn : Node.name? n = some pn) :
    bfxLoop [(n, i)] = seg tg (tagCount (Node.childrenOf n) i tg) :: rootSuffix n := by
  simp only [bfxLoop, hc, htg, hpn, rootSuffix]
  by_cases hb : pn = "body"
  · simp [hb]
  · by_cases hh : pn = "html" <;> simp [hb, hh]

theorem bfxLoop_append (A B : List (Node × Nat)) (hB : B ≠ [])
    (hA : ∀ q ∈ A, goodEntry q) :
    bfxLoop (A ++ B) = A.map entrySegOf ++ bfxLoop B := by
  induction A with
  | nil => simp
  | cons q A2 ih =>
    obtain ⟨⟨c, hc, hcn⟩, hn, hb, hh⟩ := hA q (List.mem_cons_self _ _)
    obtain ⟨tg, htg⟩ := Option.isSome_iff_exists.mp hcn
    obtain ⟨pn, hpn⟩ := Option.isSome_iff_exists.mp hn
    rcases q with ⟨p, i⟩
    have hb2 : ¬ pn = "body" := fun hx => hb (by rw [hpn, hx])
    have hh2 : ¬ pn = "html" := fun hx => hh (by rw [hpn, hx])
    have hAB : A2 ++ B ≠ [] := by
      intro hx
      exact hB (List.append_eq_nil.mp hx).2
    rw [List.cons_append]
    simp only [bfxLoop, hc, htg, hpn]
    rw [if_neg hb2, if_neg hh2]
    cases hab : A2 ++ B with
    | nil => exact absurd hab hAB
    | cons y ys =>
      rw [← hab, ih (fun q2 hq2 => hA q2 (List.mem_cons_of_mem _ hq2))]
      have hseg : entrySegOf (p, i) = seg tg (tagCount (Node.childrenOf p) i tg) := by
        simp only [entrySegOf, hc, htg]
      rw [List.map_cons, hseg, List.cons_append, hab]

theorem isSome_of_getNode_cons {c : Node} {j : Nat} {rest : List Nat} {target : Node}
    (h : getNode c (j :: rest) = some target) : (Node.name? c).isSome := by
  rcases getNode_cons.mp h with ⟨c2, hc2, _⟩
  exact name_isSome_of_child hc2

theorem spine_goodEntry (rest : List Nat) : ∀ (c target : Node),
    getNode c rest = some target → (Node.name? target).isSome →
    (∀ k, k < rest.length → ∀ nd, getNode c (rest.take k) = some nd →
        Node.name? nd ≠ some "body" ∧ Node.name? nd ≠ some "html") →
    ∀ q ∈ spine c rest, goodEntry q := by
  induction rest with
  | nil =>
    intro c target _ _ _ q hq
    simp [spine] at hq
  | cons i rest2 ih =>
    intro c target hres htar hall q hq
    rcases getNode_cons.mp hres with ⟨c2, hc2, hres2⟩
    simp only [spine, hc2] at hq
    rcases List.mem_cons.mp hq with hq | hq
    · subst hq
      refine ⟨⟨c2, hc2, ?_⟩, name_isSome_of_child hc2, ?_, ?_⟩
      · cases rest2 with
        | nil =>
          have h2 : some c2 = some target := hres2
          injection h2 with h3
          rw [h3]
          exact htar
        | cons j r3 => exact isSome_of_getNode_cons hres2
      · exact (hall 0 (by simp) c rfl).1
      · exact (hall 0 (by simp) c rfl).2
    · refine ih c2 target hres2 htar ?_ q hq
      intro k hk nd hnd
      exact hall (k + 1) (by simp only [List.length_cons]; omega) nd
        (getNode_cons.mpr ⟨c2, hc2, hnd⟩)

theorem map_entrySegOf_spine (rest : List Nat) : ∀ (c target : Node),
    getNode c rest = some target → (Node.name? target).isSome →
    (spine c rest).map entrySegOf = specPathSegs c rest := by
  induction rest with
  | nil => intro c target _ _; simp [spine, specPathSegs]
  | cons i rest2 ih =>
    intro c target hres htar
    rcases getNode_cons.mp hres with ⟨c2, hc2, hres2⟩
    have hc2n : (Node.name? c2).isSome := by
      cases rest2 with
      | nil =>
        have h2 : some c2 = some target := hres2
        injection h2 with h3
        rw [h3]
        exact htar
      | cons j r3 => exact isSome_of_getNode_cons hres2
    obtain ⟨tg, htg⟩ := Option.isSome_iff_exists.mp hc2n
    have hseg : entrySegOf (c, i) = seg tg (tagCount (Node.childrenOf c) i tg) := by
      simp only [entrySegOf, hc2, htg]
    simp only [spine, hc2, List.map_cons, hseg, ih c2 target hres2 htar,
      specPathSegs, htg]

theorem bfx_components (n : Node) (addr : List Nat) (target : Node)
    (hne : addr ≠ []) (hres : getNode n addr = some target)
    (htarget : (Node.name? target).isSome)
    (hmid : ∀ k, 0 < k → k < addr.length → ∀ nd, getNode n (addr.take k) = some nd →
        Node.name? nd ≠ some "body" ∧ Node.name? nd ≠ some "html") :
    bfxLoop ((spine n addr).reverse) = (specPathSegs n addr).reverse ++ rootSuffix n := by
  cases addr with
  | nil => exact absurd rfl hne
  | cons i rest =>
    rcases getNode_cons.mp hres with ⟨c, hc, hres2⟩
    have hpn : (Node.name? n).isSome := name_isSome_of_child hc
    obtain ⟨pn, hpn2⟩ := Option.isSome_iff_exists.mp hpn
    cases rest with
    | nil =>
      have h2 : some c = some target := hres2
      injection h2 with h3
      subst h3
      obtain ⟨tg, htg⟩ := Option.isSome_iff_exists.mp htarget
      simp only [spine, hc]
      rw [show ([(n, i)] : List (Node × Nat)).reverse = [(n, i)] from rfl,
        bfxLoop_single hc htg hpn2]
      simp only [specPathSegs, hc, htg]
      simp
    | cons j rest2 =>
      have hsp : spine n (i :: j :: rest2) = (n, i) :: spine c (j :: rest2) := by
        simp only [spine, hc]
      rw [hsp, List.reverse_cons]
      have hgood : ∀ q ∈ (spine c (j :: rest2)).reverse, goodEntry q := by
        intro q hq
        refine spine_goodEntry (j :: rest2) c target hres2 htarget ?_ q
          (List.mem_reverse.mp hq)
        intro k hk nd hnd
        exact hmid (k + 1) (by omega)
          (by simp only [List.length_cons] at hk ⊢; omega) nd
          (getNode_cons.mpr ⟨c, hc, hnd⟩)
      rw [bfxLoop_append _ _ (by simp) hgood]
      have hcn : (Node.name? c).isSome := isSome_of_getNode_cons hres2
      obtain ⟨tg, htg⟩ := Option.isSome_iff_exists.mp hcn
      rw [bfxLoop_single hc htg hpn2, List.map_reverse,
        map_entrySegOf_spine (j :: rest2) c target hres2 htarget]
      simp only [specPathSegs, hc, htg]
      rw [List.reverse_cons]
      simp [List.append_assoc]

theorem build_fast_xpath_formula (n : Node) (addr : List Nat) (target : Node)
    (hne : addr ≠ []) (hres : getNode n addr = some target)
    (htarget : (Node.name? target).isSome)
    (hmid : ∀ k, 0 < k → k < addr.length → ∀ nd, getNode n (addr.take k) = some nd →
        Node.name? nd ≠ some "body" ∧ Node.name? nd ≠ some "html") :
    build_fast_xpath n addr
      = "/" ++ joinSlash ((rootSuffix n).reverse ++ specPathSegs n addr) := by
  cases addr with
  | nil => exact absurd rfl hne
  | cons i rest =>
    have hcomp := bfx_components n (i :: rest) target hne hres htarget hmid
    rcases getNode_cons.mp hres with ⟨c, hc, hres2⟩
    have hcn : (Node.name? c).isSome := by
      cases rest with
      | nil =>
        have h2 : some c = some target := hres2
        injection h2 with h3
        rw [h3]
        exact htarget
      | cons j r3 => exact isSome_of_getNode_cons hres2
    obtain ⟨tg, htg⟩ := Option.isSome_iff_exists.mp hcn
    have hspec : specPathSegs n (i :: rest)
        = seg tg (tagCount (Node.childrenOf n) i tg) :: specPathSegs c rest := by
      simp only [specPathSegs, hc, htg]
    have hne2 : (rootSuffix n).reverse ++ specPathSegs n (i :: rest) ≠ [] := by
      rw [hspec]
      intro hx
      have := (List.append_eq_nil.mp hx).2
      simp at this
    simp only [build_fast_xpath]
    rw [hcomp, List.reverse_append, List.reverse_reverse, if_neg hne2]

theorem spine_reverse_head (addr : List Nat) : ∀ (n target : Node), addr ≠ [] →
    getNode n addr = some target →
    ∃ p i rest2, (spine n addr).reverse = (p, i) :: rest2
      ∧ (Node.childrenOf p)[i]? = some target := by
  induction addr with
  | nil => intro n target hne; exact absurd rfl hne
  | cons i rest ih =>
    intro n target _ hres
    rcases getNode_cons.mp hres with ⟨c, hc, hres2⟩
    cases rest with
    | nil =>
      have h2 : some c = some target := hres2
      injection h2 with h3
      subst h3
      refine ⟨n, i, [], ?_, hc⟩
      simp [spine, hc]
    | cons j rest2 =>
      obtain ⟨p, i2, rest3, hrev, hchild⟩ := ih c target (by simp) hres2
      refine ⟨p, i2, rest3 ++ [(n, i)], ?_, hchild⟩
      have hsp : spine n (i :: j :: rest2) = (n, i) :: spine c (j :: rest2) := by
        simp only [spine, hc]
      rw [hsp, List.reverse_cons, hrev, List.cons_append]

/-- The fallback: called on a text node (the only nameless node), the
builder returns the marker path. -/
theorem build_fast_xpath_unknown (root : Node) (a : List Nat) (s : String)
    (hne : a ≠ []) (hres : getNode root a = some (Node.text s)) :
    build_fast_xpath root a = "/unknown[1]" := by
  cases a with
  | nil => exact absurd rfl hne
  | cons i rest =>
    obtain ⟨p, i2, rest2, hrev, hchild⟩ :=
      spine_reverse_head (i :: rest) root (Node.text s) (by simp) hres
    simp only [build_fast_xpath]
    rw [hrev]
    simp only [bfxLoop, hchild, Node.name?]
    simp

/-! ## Claim C6: the path formula -/

/-- C6 amended: for a tree rooted at the document body with no nested
`body`/`html` element along the ancestor chain (true of any parsed HTML
document), the computed path is '/' followed by the '/'-joined
`tag[position]` segments from the root down to the node — the spec-modelled
`specPathSegs`, where position is 1 plus the number of preceding same-tag
siblings — with the root segment emitted as `body[1]`.  The fallback
`/unknown[1]` is returned exactly for nameless (text-node) targets, not
when the ancestor chain fails to reach a recognized root (see the
counterexample). -/
theorem build_path_spec (root : Node) (addr : List Nat) (target : Node)
    (hne : addr ≠ []) (hres : getNode root addr = some target)
    (htarget : (Node.name? target).isSome)
    (hroot : Node.name? root = some "body")
    (hmid : ∀ k, 0 < k → k < addr.length → ∀ nd, getNode root (addr.take k) = some nd →
        Node.name? nd ≠ some "body" ∧ Node.name? nd ≠ some "html") :
    (build_fast_xpath root addr = "/" ++ joinSlash ("body[1]" :: specPathSegs root addr))
    ∧ (∀ (a : List Nat) (s : String), a ≠ [] → getNode root a = some (Node.text s) →
        build_fast_xpath root a = "/unknown[1]") := by
  constructor
  · rw [build_fast_xpath_formula root addr target hne hres htarget hmid]
    rw [rootSuffix, hroot]
    simp
  · intro a s h1 h2
    exact build_fast_xpath_unknown root a s h1 h2

/-- C6 counterexample: on a detached fragment whose ancestor chain reaches
no `body`/`html` root, the builder does not return the fallback
`/unknown[1]` — it returns the joined chain up to the top of the
fragment. -/
theorem build_fast_xpath_no_fallback :
    build_fast_xpath (Node.element "div" [] [Node.element "p" [] []]) [0] = "/div[1]/p[1]"
    ∧ ("/div[1]/p[1]" : String) ≠ "/unknown[1]" :=
  ⟨by decide, by decide⟩

def docC6 : Node :=
  Node.element "body" []
    [Node.element "div" []
      [Node.element "p" [] [], Node.element "p" [] []]]

theorem build_path_spec_witness :
    (build_fast_xpath docC6 [0, 1]
      = "/" ++ joinSlash ("body[1]" :: specPathSegs docC6 [0, 1]))
    ∧ build_fast_xpath docC6 [0, 1] = "/body[1]/div[1]/p[2]" :=
  ⟨(build_path_spec docC6 [0, 1] (Node.element "p" [] []) (by decide) rfl rfl rfl
      (by
        intro k hk1 hk2 nd hnd
        have hk : k = 1 := by
          simp only [List.length_cons, List.length_nil] at hk2
          omega
        subst hk
        have h0 : getNode docC6 (List.take 1 [0, 1])
            = some (Node.element "div" []
                [Node.element "p" [] [], Node.element "p" [] []]) := rfl
        rw [h0] at hnd
        injection hnd with h
        rw [← h]
        exact ⟨by decide, by decide⟩)).1,
   by decide⟩

/-! ## Claim C1: injectivity of the path builder -/

theorem tagCount_lt {cs : List Node} {i₁ i₂ : Nat} {t : String} {c₁ : Node}
    (h₁ : cs[i₁]? = some c₁) (hn : Node.name? c₁ = some t) (hlt : i₁ < i₂) :
    tagCount cs i₁ t < tagCount cs i₂ t := by
  unfold tagCount
  have hsplit : cs.take i₂ = cs.take (i₁ + 1) ++ (cs.drop (i₁ + 1)).take (i₂ - (i₁ + 1)) := by
    have h : i₂ = (i₁ + 1) + (i₂ - (i₁ + 1)) := by omega
    rw [h, List.take_add]
    rw [← h]
  have hsucc : cs.take (i₁ + 1) = cs.take i₁ ++ [c₁] := by
    rw [List.take_succ, h₁]
    rfl
  have hc : (Node.name? c₁ == some t) = true := by rw [hn]; simp
  rw [hsplit, hsucc, List.filter_append, List.filter_append, List.length_append,
    List.length_append]
  have : (List.filter (fun s => Node.name? s == some t) [c₁]).length = 1 := by
    simp [hc]
  rw [this]
  omega

theorem specPathSegs_inj (a₁ : List Nat) : ∀ (n : Node) (a₂ : List Nat) (t₁ t₂ : Node),
    goodTags n = true →
    getNode n a₁ = some t₁ → (Node.name? t₁).isSome →
    getNode n a₂ = some t₂ → (Node.name? t₂).isSome →
    specPathSegs n a₁ = specPathSegs n a₂ → a₁ = a₂ := by
  induction a₁ with
  | nil =>
    intro n a₂ t₁ t₂ hg h1 h1s h2 h2s heq
    cases a₂ with
    | nil => rfl
    | cons j r₂ =>
      exfalso
      rcases getNode_cons.mp h2 with ⟨c, hc, hres2⟩
      have hcn : (Node.name? c).isSome := by
        cases r₂ with
        | nil =>
          have hx : some c = some t₂ := hres2
          injection hx with hx2
          rw [hx2]
          exact h2s
        | cons j2 r3 => exact isSome_of_getNode_cons hres2
      obtain ⟨tg, htg⟩ := Option.isSome_iff_exists.mp hcn
      simp only [specPathSegs, hc, htg] at heq
      exact List.noConfusion heq
  | cons i r₁ ih =>
    intro n a₂ t₁ t₂ hg h1 h1s h2 h2s heq
    rcases getNode_cons.mp h1 with ⟨c₁, hc₁, hr₁⟩
    have hc₁n : (Node.name? c₁).isSome := by
      cases r₁ with
      | nil =>
        have hx : some c₁ = some t₁ := hr₁
        injection hx with hx2
        rw [hx2]
        exact h1s
      | cons j2 r3 => exact isSome_of_getNode_cons hr₁
    obtain ⟨tg₁, htg₁⟩ := Option.isSome_iff_exists.mp hc₁n
    cases a₂ with
    | nil =>
      exfalso
      simp only [specPathSegs, hc₁, htg₁] at heq
      exact List.noConfusion heq
    | cons j r₂ =>
      rcases getNode_cons.mp h2 with ⟨c₂, hc₂, hr₂⟩
      have hc₂n : (Node.name? c₂).isSome := by
        cases r₂ with
        | nil =>
          have hx : some c₂ = some t₂ := hr₂
          injection hx with hx2
          rw [hx2]
          exact h2s
        | cons j2 r3 => exact isSome_of_getNode_cons hr₂
      obtain ⟨tg₂, htg₂⟩ := Option.isSome_iff_exists.mp hc₂n
      simp only [specPathSegs, hc₁, htg₁, hc₂, htg₂] at heq
      injection heq with hhead htail
      have hgood₁ : goodTag tg₁ = true := goodTags_tag (goodTags_child hg hc₁) htg₁
      have hgood₂ : goodTag tg₂ = true := goodTags_tag (goodTags_child hg hc₂) htg₂
      obtain ⟨hteq, hneq⟩ := seg_inj (goodTag_bracket hgood₁) (goodTag_bracket hgood₂) hhead
      subst hteq
      have hij : i = j := by
        rcases Nat.lt_trichotomy i j with h | h | h
        · exact absurd hneq (Nat.ne_of_lt (tagCount_lt hc₁ htg₁ h))
        · exact h
        · exact absurd hneq.symm (Nat.ne_of_lt (tagCount_lt hc₂ htg₂ h))
      subst hij
      have hcc : c₁ = c₂ := by
        rw [hc₁] at hc₂
        injection hc₂
      subst hcc
      rw [ih c₁ r₂ t₁ t₂ (goodTags_child hg hc₁) hr₁ h1s hr₂ h2s htail]

theorem rootSuffix_slash_free {n : Node} (hgood : goodTags n = true) :
    ∀ s ∈ rootSuffix n, ('/' : Char) ∉ s.data := by
  intro s hs
  cases hname : Node.name? n with
  | none =>
    simp only [rootSuffix, hname] at hs
    simp at hs
  | some pn =>
    simp only [rootSuffix, hname] at hs
    by_cases hb : pn = "body"
    · rw [if_pos hb] at hs
      rcases List.mem_singleton.mp hs with rfl
      decide
    · rw [if_neg hb] at hs
      by_cases hh : pn = "html"
      · rw [if_pos hh] at hs; simp at hs
      · rw [if_neg hh] at hs
        rcases List.mem_singleton.mp hs with rfl
        exact seg_slash_free 1 (goodTags_tag hgood hname)

theorem specPathSegs_slash_free (a : List Nat) : ∀ (n target : Node),
    goodTags n = true → getNode n a = some target → (Node.name? target).isSome →
    ∀ s ∈ specPathSegs n a, ('/' : Char) ∉ s.data := by
  induction a with
  | nil => intro n target _ _ _ s hs; simp [specPathSegs] at hs
  | cons i rest ih =>
    intro n target hg hres hts s hs
    rcases getNode_cons.mp hres with ⟨c, hc, hres2⟩
    have hcn : (Node.name? c).isSome := by
      cases rest with
      | nil =>
        have hx : some c = some target := hres2
        injection hx with hx2
        rw [hx2]
        exact hts
      | cons j2 r3 => exact isSome_of_getNode_cons hres2
    obtain ⟨tg, htg⟩ := Option.isSome_iff_exists.mp hcn
    simp only [specPathSegs, hc, htg] at hs
    rcases List.mem_cons.mp hs with hs | hs
    · subst hs
      exact seg_slash_free _ (goodTags_tag (goodTags_child hg hc) htg)
    · exact ih c target (goodTags_child hg hc) hres2 hts s hs

theorem take_ne_nil_of_pos {α : Type} {l : List α} {k : Nat} (hk : 0 < k) (hl : l ≠ []) :
    l.take k ≠ [] := by
  cases l with
  | nil => exact absurd rfl hl
  | cons x xs =>
    cases k with
    | zero => omega
    | succ k2 => simp

/-- C1 amended: on any tree in which no element strictly below the root is
tagged `body` or `html`, and whose tag names contain neither `'['` nor `'/'`
(both true of every tree the HTML parser hands to the indexer),
`build_fast_xpath` assigns pairwise-distinct path strings to distinct
element nodes: it is injective on the element addresses of one tree. -/
theorem build_fast_xpath_injective (root : Node) (a₁ a₂ : List Nat) (t₁ t₂ : Node)
    (h₁ : a₁ ≠ []) (h₂ : a₂ ≠ [])
    (hres₁ : getNode root a₁ = some t₁) (hs₁ : (Node.name? t₁).isSome)
    (hres₂ : getNode root a₂ = some t₂) (hs₂ : (Node.name? t₂).isSome)
    (hclean : noBodyHtmlBelow root = true) (hgood : goodTags root = true)
    (heq : build_fast_xpath root a₁ = build_fast_xpath root a₂) : a₁ = a₂ := by
  have hmid₁ : ∀ k, 0 < k → k < a₁.length → ∀ nd, getNode root (a₁.take k) = some nd →
      Node.name? nd ≠ some "body" ∧ Node.name? nd ≠ some "html" := by
    intro k hk0 _ nd hnd
    exact noBodyHtml_at hclean (a₁.take k) (take_ne_nil_of_pos hk0 h₁) nd hnd
  have hmid₂ : ∀ k, 0 < k → k < a₂.length → ∀ nd, getNode root (a₂.take k) = some nd →
      Node.name? nd ≠ some "body" ∧ Node.name? nd ≠ some "html" := by
    intro k hk0 _ nd hnd
    exact noBodyHtml_at hclean (a₂.take k) (take_ne_nil_of_pos hk0 h₂) nd hnd
  rw [build_fast_xpath_formula root a₁ t₁ h₁ hres₁ hs₁ hmid₁,
    build_fast_xpath_formula root a₂ t₂ h₂ hres₂ hs₂ hmid₂] at heq
  have hjoin : joinSlash ((rootSuffix root).reverse ++ specPathSegs root a₁)
      = joinSlash ((rootSuffix root).reverse ++ specPathSegs root a₂) := by
    have hd := congrArg String.data heq
    simp only [String.data_append] at hd
    refine String.ext ?_
    have hd2 : ('/' : Char) :: (joinSlash ((rootSuffix root).reverse ++ specPathSegs root a₁)).data
        = ('/' : Char) :: (joinSlash ((rootSuffix root).reverse ++ specPathSegs root a₂)).data := hd
    injection hd2
  have hfree₁ : ∀ s ∈ (rootSuffix root).reverse ++ specPathSegs root a₁,
      ('/' : Char) ∉ s.data := by
    intro s hs
    rcases List.mem_append.mp hs with hs | hs
    · exact rootSuffix_slash_free hgood s (List.mem_reverse.mp hs)
    · exact specPathSegs_slash_free a₁ root t₁ hgood hres₁ hs₁ s hs
  have hfree₂ : ∀ s ∈ (rootSuffix root).reverse ++ specPathSegs root a₂,
      ('/' : Char) ∉ s.data := by
    intro s hs
    rcases List.mem_append.mp hs with hs | hs
    · exact rootSuffix_slash_free hgood s (List.mem_reverse.mp hs)
    · exact specPathSegs_slash_free a₂ root t₂ hgood hres₂ hs₂ s hs
  have hspec₁ : specPathSegs root a₁ ≠ [] := by
    cases a₁ with
    | nil => exact absurd rfl h₁
    | cons i rest =>
      rcases getNode_cons.mp hres₁ with ⟨c, hc, hres₁2⟩
      have hcn : (Node.name? c).isSome := by
        cases rest with
        | nil =>
          have hx : some c = some t₁ := hres₁2
          injection hx with hx2
          rw [hx2]
          exact hs₁
        | cons j2 r3 => exact isSome_of_getNode_cons hres₁2
      obtain ⟨tg, htg⟩ := Option.isSome_iff_exists.mp hcn
      simp [specPathSegs, hc, htg]
  have hspec₂ : specPathSegs root a₂ ≠ [] := by
    cases a₂ with
    | nil => exact absurd rfl h₂
    | cons i rest =>
      rcases getNode_cons.mp hres₂ with ⟨c, hc, hres₂2⟩
      have hcn : (Node.name? c).isSome := by
        cases rest with
        | nil =>
          have hx : some c = some t₂ := hres₂2
          injection hx with hx2
          rw [hx2]
          exact hs₂
        | cons j2 r3 => exact isSome_of_getNode_cons hres₂2
      obtain ⟨tg, htg⟩ := Option.isSome_iff_exists.mp hcn
      simp [specPathSegs, hc, htg]
  have hlists := joinSlash_inj hfree₁ hfree₂
    (by
      intro hx
      exact hspec₁ (List.append_eq_nil.mp hx).2)
    (by
      intro hx
      exact hspec₂ (List.append_eq_nil.mp hx).2)
    hjoin
  have hsegs := List.append_cancel_left hlists
  exact specPathSegs_inj a₁ root a₂ t₁ t₂ hgood hres₁ hs₁ hres₂ hs₂ hsegs

/-- A tree with a nested `body` element: `<body><div><body><p/></body></div><p/></body>`. -/
def docC1 : Node :=
  Node.element "body" []
    [Node.element "div" []
      [Node.element "body" [] [Node.element "p" [] []]],
     Node.element "p" [] []]

/-- C1 counterexample: with a nested `body` element the builder's hardcoded
break-at-body emits `body[1]` for both walks, giving two distinct element
nodes the same path string, so `build_fast_xpath` is not injective on all
trees. -/
theorem build_fast_xpath_not_injective :
    build_fast_xpath docC1 [0, 0, 0] = "/body[1]/p[1]"
    ∧ build_fast_xpath docC1 [1] = "/body[1]/p[1]"
    ∧ ([0, 0, 0] : List Nat) ≠ [1]
    ∧ isElemAt docC1 [0, 0, 0] = true
    ∧ isElemAt docC1 [1] = true :=
  ⟨by decide, by decide, by decide, by decide, by decide⟩

theorem build_fast_xpath_injective_witness :
    ([0, 1] : List Nat) = [0, 1] :=
  build_fast_xpath_injective docC6 [0, 1] [0, 1]
    (Node.element "p" [] []) (Node.element "p" [] [])
    (by decide) (by decide) rfl rfl rfl rfl (by decide) (by decide) rfl
